import Mathlib

set_option autoImplicit false
set_option maxRecDepth 40000

deriving instance DecidableEq for Except

namespace Upatcher

/-- Resolved XML names, as `xml.etree.ElementTree` represents them after
namespace-aware parsing: `plain s` is an unprefixed (or literal) name kept as
the string `s`; `ns uri loc` is ElementTree's braced form, the string
`"\x7buri\x7dloc"`.  The encoding is injective, so the structured form is
used here. -/
inductive QN : Type where
  | plain (s : String)
  | ns (uri : String) (loc : String)
deriving DecidableEq, Repr

mutual
/-- An XML element: tag, attribute list (document order), child elements.
Text and tail content never occur in the documents this program builds or
reads back, so they are not modelled.  `κ` is the name type: `String` for a
serialized (on-disk) document, `QN` for a parsed in-memory document. -/
inductive XT (κ : Type) : Type where
  | node (tag : κ) (attrs : List (κ × String)) (children : XTs κ)

/-- Lists of child elements (mutually defined with `XT`). -/
inductive XTs (κ : Type) : Type where
  | nil : XTs κ
  | cons (hd : XT κ) (tl : XTs κ) : XTs κ
end

deriving instance DecidableEq for XT, XTs
deriving instance Repr for XT, XTs

/-- Append for child lists. -/
def XTs.append {κ : Type} : XTs κ → XTs κ → XTs κ
  | .nil, ys => ys
  | .cons x xs, ys => .cons x (XTs.append xs ys)

def XT.tagOf {κ : Type} : XT κ → κ
  | .node t _ _ => t

def XT.attrsOf {κ : Type} : XT κ → List (κ × String)
  | .node _ a _ => a

def XT.childrenOf {κ : Type} : XT κ → XTs κ
  | .node _ _ c => c

/-- Split a character list at the first occurrence of `c`. -/
def splitFirstL (c : Char) : List Char → Option (List Char × List Char)
  | [] => none
  | x :: xs =>
    if x = c then some ([], xs)
    else
      match splitFirstL c xs with
      | some (a, b) => some (x :: a, b)
      | none => none

/-- Split a string at the first occurrence of `c`; `none` if `c` does not occur. -/
def splitC (c : Char) (s : String) : Option (String × String) :=
  match splitFirstL c s.data with
  | some (a, b) => some (⟨a⟩, ⟨b⟩)
  | none => none

/-- First-match association-list lookup (Python dict lookup, ElementTree `get`). -/
def lookupA {β : Type} {α : Type} [DecidableEq α] : α → List (α × β) → Option β
  | _, [] => none
  | k, (k', v) :: r => if k' = k then some v else lookupA k r

/-- The Android platform attribute namespace URI (upatcher.py lines 163 and 176). -/
def androidUri : String := "http://schemas.android.com/apk/res/android"

/-- The XML namespace, predeclared with the `xml` prefix by expat. -/
def xmlUri : String := "http://www.w3.org/XML/1998/namespace"

/-- Namespace environment: prefix-to-URI bindings, innermost first.  The empty
prefix stands for the default namespace. -/
abbrev Env := List (String × String)

/-- Initial environment of the parser: expat predeclares the `xml` prefix. -/
def envInit : Env := [("xml", xmlUri)]

/-- When an attribute is a namespace declaration (`xmlns="u"` or `xmlns:p="u"`),
the binding it introduces; otherwise `none`. -/
def nsDeclOf (k v : String) : Option (String × String) :=
  if k = "xmlns" then some ("", v)
  else
    match splitC ':' k with
    | some (p, r) => if p = "xmlns" then some (r, v) else none
    | none => none

/-- All namespace declarations carried by an attribute list, in document order. -/
def nsDecls (as : List (String × String)) : Env :=
  as.filterMap (fun e => nsDeclOf e.1 e.2)

/-- Resolve an attribute name as expat does with namespace processing on:
unprefixed attribute names stay plain (the default namespace does not apply to
attributes); `p:l` resolves through the environment or is an unbound-prefix
parse error. -/
def resolveKeyR (env : Env) (k : String) : Except String QN :=
  match splitC ':' k with
  | none => .ok (.plain k)
  | some (p, l) =>
    match lookupA p env with
    | some u => .ok (.ns u l)
    | none => .error ("unbound prefix: " ++ p)

/-- Resolve an element name: like an attribute name, except that an unprefixed
tag picks up the default namespace when one is bound (`xmlns=""` unbinds it). -/
def resolveTagR (env : Env) (t : String) : Except String QN :=
  match splitC ':' t with
  | none =>
    match lookupA "" env with
    | some u => if u = "" then .ok (.plain t) else .ok (.ns u t)
    | none => .ok (.plain t)
  | some (p, l) =>
    match lookupA p env with
    | some u => .ok (.ns u l)
    | none => .error ("unbound prefix: " ++ p)

/-- Resolve an attribute list: namespace declarations are consumed (they do not
appear as attributes of the parsed element), the rest resolve in order. -/
def resolveAttrs (env : Env) : List (String × String) → Except String (List (QN × String))
  | [] => .ok []
  | (k, v) :: rest =>
    if (nsDeclOf k v).isSome then resolveAttrs env rest
    else
      match resolveKeyR env k with
      | .error e => .error e
      | .ok q =>
        match resolveAttrs env rest with
        | .error e => .error e
        | .ok qs => .ok ((q, v) :: qs)

mutual
/-- Namespace-aware parse of one element, as `ET.parse` produces it: the
environment is extended by this element's `xmlns` declarations, then names are
resolved — tag first, then attributes, then children, which is the document
order in which expat would report an unbound prefix. -/
def resolveE (env : Env) : XT String → Except String (XT QN)
  | .node t as cs =>
    let env2 := nsDecls as ++ env
    match resolveTagR env2 t with
    | .error e => .error e
    | .ok t2 =>
      match resolveAttrs env2 as with
      | .error e => .error e
      | .ok as2 =>
        match resolveL env2 cs with
        | .error e => .error e
        | .ok cs2 => .ok (.node t2 as2 cs2)

/-- Parse of a child list, left to right. -/
def resolveL (env : Env) : XTs String → Except String (XTs QN)
  | .nil => .ok .nil
  | .cons x xs =>
    match resolveE env x with
    | .error e => .error e
    | .ok y =>
      match resolveL env xs with
      | .error e => .error e
      | .ok ys => .ok (.cons y ys)
end

/-- ElementTree's well-known namespace prefixes (`ET._namespace_map`), keyed by
URI, together with the `android` prefix registered at upatcher.py line 163. -/
def wellKnown : List (String × String) :=
  [(androidUri, "android"),
   (xmlUri, "xml"),
   ("http://www.w3.org/1999/xhtml", "html"),
   ("http://www.w3.org/1999/02/22-rdf-syntax-ns#", "rdf"),
   ("http://schemas.xmlsoap.org/wsdl/", "wsdl"),
   ("http://www.w3.org/2001/XMLSchema", "xs"),
   ("http://www.w3.org/2001/XMLSchema-instance", "xsi"),
   ("http://purl.org/dc/elements/1.1/", "dc")]

/-- The character for a decimal digit (only ever applied to `n < 10`). -/
def digitCh : Nat → Char
  | 0 => '0'
  | 1 => '1'
  | 2 => '2'
  | 3 => '3'
  | 4 => '4'
  | 5 => '5'
  | 6 => '6'
  | 7 => '7'
  | 8 => '8'
  | 9 => '9'
  | _ => '*'

/-- Decimal digit characters of `n`, most significant first (fuelled so it
computes by reduction; the fuel `n + 1` always suffices). -/
def decChars : Nat → Nat → List Char
  | 0, _ => []
  | f + 1, n =>
    if n < 10 then [digitCh n]
    else decChars f (n / 10) ++ [digitCh (n % 10)]

/-- Decimal representation of `n`, for ET's generated `ns%d` prefixes. -/
def decStr (n : Nat) : String := ⟨decChars (n + 1) n⟩

/-- Record a namespaced name's URI, first encounter first, no duplicates. -/
def addUri (acc : List String) (k : QN) : List String :=
  match k with
  | .plain _ => acc
  | .ns u _ => if u ∈ acc then acc else acc ++ [u]

mutual
/-- URIs used by qualified names in the document, in ET `_namespaces` encounter
order: preorder walk, tag before attributes, attributes in order. -/
def collectE (acc : List String) : XT QN → List String
  | .node t as cs => collectL (as.foldl (fun a p => addUri a p.1) (addUri acc t)) cs

/-- URI collection over a child list. -/
def collectL (acc : List String) : XTs QN → List String
  | .nil => acc
  | .cons x xs => collectL (collectE acc x) xs
end

/-- All URIs used in the document. -/
def collectUris (e : XT QN) : List String := collectE [] e

/-- How many assigned prefixes ET has stored when it generates `ns%d`: entries
with the predeclared `xml` prefix are not stored in its `namespaces` dict. -/
def countStored (acc : List (String × String)) : Nat :=
  (acc.filter (fun e => !(e.2 == "xml"))).length

/-- Prefix assignment, one URI at a time (ET `_namespaces.add_qname`): the
well-known/registered prefix when there is one, else a generated `ns%d`. -/
def mkTableAux : List (String × String) → List String → List (String × String)
  | acc, [] => acc
  | acc, u :: us =>
    let p :=
      match lookupA u wellKnown with
      | some p => p
      | none => "ns" ++ decStr (countStored acc)
    mkTableAux (acc ++ [(u, p)]) us

/-- The URI-to-prefix table for the used URIs of a document. -/
def mkTable (us : List String) : List (String × String) := mkTableAux [] us

/-- Serialize one resolved name (ET's qname mapping): plain names are written
as-is, namespaced names become `prefix:loc`.  The `none` fallback never fires
for a table built from the document's own URIs. -/
def serKeyQ (table : List (String × String)) : QN → String
  | .plain s => s
  | .ns u l =>
    match lookupA u table with
    | some p => p ++ ":" ++ l
    | none => "\x7b" ++ u ++ "\x7d" ++ l

mutual
/-- Map every tag and attribute name of an element to its serialized form. -/
def serE (table : List (String × String)) : XT QN → XT String
  | .node t as cs =>
    .node (serKeyQ table t) (as.map (fun p => (serKeyQ table p.1, p.2))) (serL table cs)

/-- Serialization of a child list. -/
def serL (table : List (String × String)) : XTs QN → XTs String
  | .nil => .nil
  | .cons x xs => .cons (serE table x) (serL table xs)
end

/-- Ordered insertion by first component. -/
def insertByKey (x : String × String) : List (String × String) → List (String × String)
  | [] => [x]
  | y :: ys => if compare x.1 y.1 = Ordering.lt then x :: y :: ys else y :: insertByKey x ys

/-- Insertion sort by first component: ET sorts the xmlns declarations it puts
on the root element by prefix, which here is sorting the attribute names
(`xmlns:` is a shared leading string). -/
def sortByKey : List (String × String) → List (String × String)
  | [] => []
  | x :: xs => insertByKey x (sortByKey xs)

/-- The `xmlns:prefix="uri"` attributes ET writes on the root element: one per
stored namespace (the predeclared `xml` prefix is never declared), sorted. -/
def xmlnsAttrs (table : List (String × String)) : List (String × String) :=
  sortByKey ((table.filter (fun e => !(e.2 == "xml"))).map (fun e => ("xmlns:" ++ e.2, e.1)))

/-- Serialize a document as `tree.write(manifest_path, encoding='utf-8',
xml_declaration=True)` does after `register_namespace('android', …)`: assign
prefixes to all used URIs, map every name, and declare the namespaces on the
root element, before its other attributes. -/
def serializeDoc (d : XT QN) : XT String :=
  let table := mkTable (collectUris d)
  match serE table d with
  | .node t as cs => .node t (xmlnsAttrs table ++ as) cs

/-- ET `_escape_attrib`. -/
def escAttrib (v : String) : String :=
  ⟨v.data.foldr
    (fun c acc =>
      if c = '&' then ("&amp;").data ++ acc
      else if c = '<' then ("&lt;").data ++ acc
      else if c = '>' then ("&gt;").data ++ acc
      else if c = '"' then ("&quot;").data ++ acc
      else if c = '\r' then ("&#13;").data ++ acc
      else if c = '\n' then ("&#10;").data ++ acc
      else if c = '\t' then ("&#09;").data ++ acc
      else c :: acc)
    []⟩

/-- The serialized attribute text, in list order. -/
def attrsText (as : List (String × String)) : String :=
  as.foldl (fun acc e => acc ++ " " ++ e.1 ++ "=\"" ++ escAttrib e.2 ++ "\"") ""

mutual
/-- The bytes ET writes for an element (these documents carry no text or tail):
an element without children is self-closed `<t a="v" />`, otherwise
`<t …>children</t>`. -/
def emitE : XT String → String
  | .node t as .nil => "<" ++ t ++ attrsText as ++ " />"
  | .node t as (.cons c cs) =>
    "<" ++ t ++ attrsText as ++ ">" ++ emitL (.cons c cs) ++ "</" ++ t ++ ">"

/-- Emission of a child list. -/
def emitL : XTs String → String
  | .nil => ""
  | .cons x xs => emitE x ++ emitL xs
end

/-- A whole written manifest file: the XML declaration `tree.write` emits for
encoding `utf-8`, followed by the root element. -/
def emitDoc (e : XT String) : String :=
  "<?xml version='1.0' encoding='utf-8'?>\n" ++ emitE e

/-! ## Canonical forms and well-formedness predicates for the
serialize-then-reparse round trip (used to settle the idempotence claim). -/

/-- What the second parse makes of a serialized attribute name, as a function
of the original resolved name: mirrors `resolveKeyR` composed with `serKeyQ`
under table `table` and reparse environment `env`.  The fall-through branches
never fire for well-formed inputs. -/
def canonKeyQ (table : List (String × String)) (env : Env) : QN → QN
  | .plain s =>
    match splitC ':' s with
    | none => .plain s
    | some (p, l) =>
      match lookupA p env with
      | some u => .ns u l
      | none => .plain s
  | .ns u l =>
    match lookupA u table with
    | some p =>
      match lookupA p env with
      | some u' => .ns u' l
      | none => .ns u l
    | none => .ns u l

/-- What the second parse makes of a serialized element name: like
`canonKeyQ`, except a colon-free plain tag consults the default namespace. -/
def canonTagQ (table : List (String × String)) (env : Env) : QN → QN
  | .plain s =>
    match splitC ':' s with
    | none =>
      match lookupA "" env with
      | some u => if u = "" then .plain s else .ns u s
      | none => .plain s
    | some (p, l) =>
      match lookupA p env with
      | some u => .ns u l
      | none => .plain s
  | .ns u l =>
    match lookupA u table with
    | some p =>
      match lookupA p env with
      | some u' => .ns u' l
      | none => .ns u l
    | none => .ns u l

mutual
/-- The reparsed form of a serialized element. -/
def canonE (table : List (String × String)) (env : Env) : XT QN → XT QN
  | .node t as cs =>
    .node (canonTagQ table env t)
      (as.map (fun pr => (canonKeyQ table env pr.1, pr.2)))
      (canonL table env cs)

/-- The reparsed form of a serialized child list. -/
def canonL (table : List (String × String)) (env : Env) : XTs QN → XTs QN
  | .nil => .nil
  | .cons x xs => .cons (canonE table env x) (canonL table env xs)
end

/-- A resolved attribute name whose serialized form is not a namespace
declaration and resolves without error under `env`. -/
def GoodKey (table : List (String × String)) (env : Env) : QN → Prop
  | .plain s =>
    s ≠ "xmlns" ∧
    (splitC ':' s = none ∨
      ∃ p l, splitC ':' s = some (p, l) ∧ p ≠ "xmlns" ∧ (lookupA p env).isSome = true)
  | .ns u _ =>
    ∃ p, lookupA u table = some p ∧ p ≠ "xmlns" ∧ splitC ':' p = none ∧
      (lookupA p env).isSome = true

/-- A resolved element name whose serialized form resolves without error. -/
def GoodTag (table : List (String × String)) (env : Env) : QN → Prop
  | .plain s =>
    splitC ':' s = none ∨
      ∃ p l, splitC ':' s = some (p, l) ∧ (lookupA p env).isSome = true
  | .ns u _ =>
    ∃ p, lookupA u table = some p ∧ splitC ':' p = none ∧ (lookupA p env).isSome = true

mutual
/-- Every name in the element is good for the round trip. -/
def GoodE (table : List (String × String)) (env : Env) : XT QN → Prop
  | .node t as cs =>
    GoodTag table env t ∧ (∀ pr ∈ as, GoodKey table env pr.1) ∧ GoodL table env cs

/-- Goodness of a child list. -/
def GoodL (table : List (String × String)) (env : Env) : XTs QN → Prop
  | .nil => True
  | .cons x xs => GoodE table env x ∧ GoodL table env xs
end

/-- Whether a resolved name lives in namespace `u`. -/
def keyUses (u : String) : QN → Bool
  | .plain _ => false
  | .ns u' _ => u' == u

mutual
/-- Whether the element uses namespace `u` in any tag or attribute name. -/
def usesE (u : String) : XT QN → Bool
  | .node t as cs => keyUses u t || as.any (fun pr => keyUses u pr.1) || usesL u cs

/-- Namespace use over a child list. -/
def usesL (u : String) : XTs QN → Bool
  | .nil => false
  | .cons x xs => usesE u x || usesL u xs
end

/-- Shape invariant of names produced by the parser: a plain attribute name is
colon-free and is not `xmlns`. -/
def FormKey : QN → Prop
  | .plain s => splitC ':' s = none ∧ s ≠ "xmlns"
  | .ns _ _ => True

/-- Shape invariant of tags produced by the parser: a plain tag is colon-free. -/
def FormTag : QN → Prop
  | .plain s => splitC ':' s = none
  | .ns _ _ => True

mutual
/-- Every name in the element has the parser's shape invariant. -/
def FormE : XT QN → Prop
  | .node t as cs => FormTag t ∧ (∀ pr ∈ as, FormKey pr.1) ∧ FormL cs

/-- Parser shape invariant over a child list. -/
def FormL : XTs QN → Prop
  | .nil => True
  | .cons x xs => FormE x ∧ FormL xs
end

/-- The environment a reparse of a serialized document resolves against: the
bindings of the emitted `xmlns:` attributes over the parser's initial
environment. -/
def envOf (table : List (String × String)) : Env :=
  nsDecls (xmlnsAttrs table) ++ envInit

/-- A namespace URI with a well-behaved serialized prefix that resolves under
the reparse environment (this is exactly the `ns` case of `GoodKey`). -/
def CondU (table : List (String × String)) (env : Env) (u : String) : Prop :=
  ∃ p, lookupA u table = some p ∧ p ≠ "xmlns" ∧ splitC ':' p = none ∧
    (lookupA p env).isSome = true

/-- The prefix discipline every `mkTable` entry satisfies. -/
abbrev GoodPfx (u p : String) : Prop :=
  p ≠ "xmlns" ∧ p ≠ "" ∧ splitC ':' p = none ∧
  (p = "xml" → u = xmlUri) ∧ (p = "android" → u = androidUri) ∧
  (u = androidUri → p = "android")

/-- A path, as its list of components (`os.path.join` arguments, slashes split). -/
abbrev Path := List String

/-- File contents: opaque bytes for binaries and downloads, or a well-formed XML
document held as its element tree (its on-disk bytes are `emitDoc` of it). -/
inductive FileData : Type where
  | bin (content : String)
  | xml (doc : XT String)
deriving DecidableEq, Repr

/-- The filesystem as an association list from paths to file contents; earlier
entries shadow later ones.  Directories exist exactly when some file lies under
them (empty directories are not modelled). -/
structure FS : Type where
  files : List (Path × FileData)
deriving DecidableEq, Repr

/-- Content of the regular file at `p`, if any. -/
def FS.lookup (fs : FS) (p : Path) : Option FileData := lookupA p fs.files

/-- Create or overwrite the file at `p`. -/
def FS.write (fs : FS) (p : Path) (d : FileData) : FS := ⟨(p, d) :: fs.files⟩

/-- Remove the file at `p` (all shadowed entries included). -/
def FS.erase (fs : FS) (p : Path) : FS := ⟨fs.files.filter (fun e => !(e.1 == p))⟩

/-- Model of `os.rename(p, q)` for a regular file on POSIX: moves the content and
silently replaces any existing file at `q`. -/
def FS.rename (fs : FS) (p q : Path) : FS :=
  match fs.lookup p with
  | none => fs
  | some d => ⟨(q, d) :: (fs.erase p).files⟩

/-- Whether `p` is a strict prefix of `q` (so `q` is a file strictly inside directory `p`). -/
def strictPre : Path → Path → Bool
  | [], [] => false
  | [], _ :: _ => true
  | _ :: _, [] => false
  | a :: as, b :: bs => a == b && strictPre as bs

/-- Model of `os.path.exists`: a regular file at `p`, or a (non-empty) directory at `p`. -/
def FS.pathExists (fs : FS) (p : Path) : Bool :=
  (fs.lookup p).isSome || fs.files.any (fun e => strictPre p e.1)

/-! ## The program's operations (upatcher.py), over this filesystem model.
External processes (wget, apktool, the signer) are opaque: their success and
produced bytes are parameters.  Printing is not modelled. -/

/-- Model of `shutil.copytree(src, dst, dirs_exist_ok=True)`: every file under `src` is
written to the same relative path under `dst`, overwriting what is there. -/
def copytree (src dst : Path) (fs : FS) : FS :=
  (fs.files.filter (fun e => strictPre src e.1)).foldl
    (fun acc e => acc.write (dst ++ e.1.drop src.length) e.2) fs

/-- upatcher.py `merge_apks` (lines 70-82): copy `split/lib` into `base/lib`
when the source exists, otherwise report a warning and do nothing. -/
def merge_apks (base split : Path) (fs : FS) : FS :=
  if fs.pathExists (split ++ ["lib"]) then copytree (split ++ ["lib"]) (base ++ ["lib"]) fs
  else fs

/-- The fixed `provider_paths.xml` content (upatcher.py lines 148-152). -/
def providerPathsXml : String :=
  "<?xml version=\"1.0\" encoding=\"utf-8\"?>\n<paths>\n    <cache-path name=\"cache\" path=\".\" />\n</paths>\n"

/-- upatcher.py `create_provider_paths` (lines 142-156): create `res/xml` and
write the fixed provider-paths resource. -/
def create_provider_paths (base : Path) (fs : FS) : FS :=
  fs.write (base ++ ["res", "xml", "provider_paths.xml"]) (.bin providerPathsXml)

/-- upatcher.py `modify_files` (lines 84-99) with the downloaded replacement
bytes `b`: if `lib/arm64-v8a/libmain.so` exists it is renamed to
`libmain_orig.so` (POSIX rename, replacing any file already at that name), then
the replacement is written to `libmain.so`. -/
def modify_files (b : String) (base : Path) (fs : FS) : FS :=
  let modDir := base ++ ["lib", "arm64-v8a"]
  let origFile := modDir ++ ["libmain.so"]
  let newOrigFile := modDir ++ ["libmain_orig.so"]
  let fs1 := if fs.pathExists origFile then fs.rename origFile newOrigFile else fs
  fs1.write origFile (.bin b)

/-- Manifest-patching failures (spec section 7 taxonomy): the file is missing,
does not parse as namespace-well-formed XML, or has no `application` element
(upatcher.py line 172 raises for the latter). -/
inductive MErr : Type where
  | ManifestMissing
  | ManifestMalformed (msg : String)
  | ManifestStructureError
deriving DecidableEq, Repr

/-- Pipeline stages, recorded in order of invocation. -/
inductive Stage : Type where
  | merging
  | creatingPaths
  | patchingManifest
  | substituting
  | recompiling
  | signing
  | finalizing
deriving DecidableEq, Repr

/-- Pipeline-level failures. -/
inductive Err : Type where
  | manifest (e : MErr)
  | externalTool
  | keystoreMissing (p : Path)
  | expectedArtifactMissing (p : Path)
deriving DecidableEq, Repr

/-- The provider component's qualified name (upatcher.py line 174). -/
def providerName : String := "androidx.core.content.FileProvider"

/-- The element `add_provider_to_manifest` builds (upatcher.py lines 181-193):
`ET.Element` is given literal string attribute names, so they are `plain`
names containing colons, not namespaced names. -/
def providerElem : XT QN :=
  .node (.plain "provider")
    [(.plain "android:name", providerName),
     (.plain "android:authorities", "$\x7bapplicationId\x7d.provider"),
     (.plain "android:exported", "false"),
     (.plain "android:grantUriPermissions", "true")]
    (.cons
      (.node (.plain "meta-data")
        [(.plain "android:name", "android.support.FILE_PROVIDER_PATHS"),
         (.plain "android:resource", "@xml/provider_paths")]
        .nil)
      .nil)

/-- Model of `root.find(t)`: the first direct child whose tag is `t`. -/
def findTag (t : QN) : XTs QN → Option (XT QN)
  | .nil => none
  | .cons (.node tg a c) rest =>
    if tg = t then some (.node tg a c) else findTag t rest

/-- The scan of upatcher.py lines 175-179: among the direct `provider` children,
is there one whose `{android}name` attribute equals `providerName`?  The lookup
key is the namespaced name, which the literal attributes of a freshly built
provider element do not carry. -/
def provPresent : XTs QN → Bool
  | .nil => false
  | .cons (.node tg a _) rest =>
    (tg = QN.plain "provider" && lookupA (QN.ns androidUri "name") a == some providerName)
      || provPresent rest

/-- Model of `application_tag.append(provider)`: the first child tagged `t` gets `c`
appended as its last child. -/
def appendChildToFirstTag (t : QN) (c : XT QN) : XTs QN → XTs QN
  | .nil => .nil
  | .cons (.node tg a cs) rest =>
    if tg = t then .cons (.node tg a (cs.append (.cons c .nil))) rest
    else .cons (.node tg a cs) (appendChildToFirstTag t c rest)

/-- upatcher.py `add_provider_to_manifest` (lines 158-199): parse the manifest,
require an `application` element, return without writing when the provider is
already declared, otherwise append the provider element and write the tree
back.  A missing file is `ET.parse`'s `FileNotFoundError`; a parse failure is
`ET.ParseError`; a missing `application` is the `RuntimeError` of line 172. -/
def add_provider_to_manifest (base : Path) (fs : FS) : Except MErr FS :=
  let manifestPath := base ++ ["AndroidManifest.xml"]
  match fs.lookup manifestPath with
  | none => .error .ManifestMissing
  | some (.bin _) => .error (.ManifestMalformed "not well-formed XML")
  | some (.xml raw) =>
    match resolveE envInit raw with
    | .error msg => .error (.ManifestMalformed msg)
    | .ok (.node rt ras rcs) =>
      match findTag (.plain "application") rcs with
      | none => .error .ManifestStructureError
      | some app =>
        if provPresent app.childrenOf then .ok fs
        else
          .ok (fs.write manifestPath
            (.xml (serializeDoc
              (.node rt ras (appendChildToFirstTag (.plain "application") providerElem rcs)))))

/-- upatcher.py `recompile_and_sign` (lines 101-126): run `apktool b` producing
`umamusume_patched.apk` in `outDir`, then check the keystore exists (raising
`FileNotFoundError` when not), then run the signer, which produces the
aligned-signed artifact.  `rOk`/`sOk` are the external tools' exit status,
`outB`/`signB` the bytes they produce.  Returns the stages invoked, the
filesystem, and the failure if any. -/
def recompile_and_sign (rOk sOk : Bool) (outB signB : String) (base outDir ks : Path)
    (fs : FS) : List Stage × FS × Option Err :=
  if rOk = false then ([.recompiling], fs, some .externalTool)
  else
    let fs1 := fs.write (outDir ++ ["umamusume_patched.apk"]) (.bin outB)
    if fs1.pathExists ks = false then ([.recompiling], fs1, some (.keystoreMissing ks))
    else if sOk = false then ([.recompiling, .signing], fs1, some .externalTool)
    else
      ([.recompiling, .signing],
        fs1.write (outDir ++ ["umamusume_patched-aligned-signed.apk"]) (.bin signB), none)

/-- upatcher.py `finalize_apk` (lines 128-140): the signer must have produced
`umamusume_patched-aligned-signed.apk` in `dir`; raise the explicit
missing-artifact failure when it is absent, otherwise rename it to the final
name. -/
def finalize_apk (dir : Path) (finalName : String) (fs : FS) : FS × Option Err :=
  let signedApk := dir ++ ["umamusume_patched-aligned-signed.apk"]
  if fs.pathExists signedApk then (fs.rename signedApk (dir ++ [finalName]), none)
  else (fs, some (.expectedArtifactMissing signedApk))

/-- The pipeline of `main` (upatcher.py lines 211-224) after setup and
decompilation, which leave the decompiled trees at `base` and `split`, the
keystore at `debug.keystore` and the working directory `.` as output directory:
merge, write the provider-paths resource, patch the manifest, substitute the
library, recompile and sign, finalize to `umamusume.apk`.  The first failure
aborts the remaining stages (the `try` of line 211).  Returns the stages
invoked in order, the filesystem when the run stopped, and the failure if
any. -/
def pipeline (libB outB signB : String) (rOk sOk : Bool) (fs : FS) :
    List Stage × FS × Option Err :=
  let fs1 := merge_apks ["base"] ["split"] fs
  let fs2 := create_provider_paths ["base"] fs1
  match add_provider_to_manifest ["base"] fs2 with
  | .error e => ([.merging, .creatingPaths, .patchingManifest], fs2, some (.manifest e))
  | .ok fs3 =>
    let fs4 := modify_files libB ["base"] fs3
    match recompile_and_sign rOk sOk outB signB ["base"] ["."] ["debug.keystore"] fs4 with
    | (tr, fs5, some e) =>
      ([.merging, .creatingPaths, .patchingManifest, .substituting] ++ tr, fs5, some e)
    | (tr, fs5, none) =>
      match finalize_apk ["."] "umamusume.apk" fs5 with
      | (fs6, oe) =>
        ([.merging, .creatingPaths, .patchingManifest, .substituting] ++ tr ++ [.finalizing],
          fs6, oe)

/-! ## Concrete documents and filesystems used in closed statements. -/

/-- Count the direct children carrying tag `t`. -/
def XTs.countTag {κ : Type} [DecidableEq κ] (t : κ) : XTs κ → Nat
  | .nil => 0
  | .cons (.node tg _ _) rest => (if tg = t then 1 else 0) + XTs.countTag t rest

/-- The minimal manifest of the spec's end-to-end scenario:
`<manifest><application/></manifest>`. -/
def minManifest : XT String :=
  .node "manifest" [] (.cons (.node "application" [] .nil) .nil)

/-- A tree holding only the minimal manifest. -/
def fsMin : FS := ⟨[(["base", "AndroidManifest.xml"], .xml minManifest)]⟩

/-- The serialized metadata child the patch writes. -/
def minMetaData : XT String :=
  .node "meta-data"
    [("android:name", "android.support.FILE_PROVIDER_PATHS"),
     ("android:resource", "@xml/provider_paths")]
    .nil

/-- The serialized provider element the patch writes. -/
def minProvider : XT String :=
  .node "provider"
    [("android:name", providerName),
     ("android:authorities", "$\x7bapplicationId\x7d.provider"),
     ("android:exported", "false"),
     ("android:grantUriPermissions", "true")]
    (.cons minMetaData .nil)

/-- The document `add_provider_to_manifest` writes for the minimal manifest:
the application's child list consists of exactly the new provider, appended at
the end. -/
def minPatched : XT String :=
  .node "manifest" []
    (.cons (.node "application" [] (.cons minProvider .nil)) .nil)

/-- The filesystem after the first patch run on the minimal manifest. -/
def fsMin1 : FS :=
  match add_provider_to_manifest ["base"] fsMin with
  | .ok f => f
  | .error _ => fsMin

/-- A realistic manifest: the root declares `xmlns:android` and the application
element uses an attribute in that namespace, as every apktool-decompiled
`AndroidManifest.xml` does. -/
def nsManifest : XT String :=
  .node "manifest" [("xmlns:android", androidUri), ("package", "jp.co.example")]
    (.cons (.node "application" [("android:label", "x")] .nil) .nil)

/-- A tree holding the realistic manifest. -/
def fsNs : FS := ⟨[(["base", "AndroidManifest.xml"], .xml nsManifest)]⟩

/-- The filesystem after the first patch run on the realistic manifest. -/
def fsNs1 : FS :=
  match add_provider_to_manifest ["base"] fsNs with
  | .ok f => f
  | .error _ => fsNs

/-- The parsed form of `nsManifest`'s root children. -/
def nsParsedChildren : XTs QN :=
  .cons (.node (.plain "application") [(.ns androidUri "label", "x")] .nil) .nil

/-- An already-patched manifest: the provider with the target namespaced name
is a direct child of `application`. -/
def patchedRaw : XT String :=
  .node "manifest" [("xmlns:android", androidUri)]
    (.cons
      (.node "application" []
        (.cons (.node "provider" [("android:name", providerName)] .nil) .nil))
      .nil)

/-- A tree holding the already-patched manifest. -/
def fsPatched : FS := ⟨[(["base", "AndroidManifest.xml"], .xml patchedRaw)]⟩

/-- The parsed root children of `patchedRaw`. -/
def patchedChildren : XTs QN :=
  .cons
    (.node (.plain "application") []
      (.cons (.node (.plain "provider") [(.ns androidUri "name", providerName)] .nil) .nil))
    .nil

/-- The parsed application element of `patchedRaw`. -/
def patchedApp : XT QN :=
  .node (.plain "application") []
    (.cons (.node (.plain "provider") [(.ns androidUri "name", providerName)] .nil) .nil)

/-- A tree whose `libmain.so` exists with content `A` and with no backup. -/
def c3fs : FS := ⟨[(["base", "lib", "arm64-v8a", "libmain.so"], .bin "A")]⟩

/-- A tree where both the live library (content `B1`) and an earlier backup
(content `A`) exist. -/
def c4fs : FS :=
  ⟨[(["base", "lib", "arm64-v8a", "libmain.so"], .bin "B1"),
    (["base", "lib", "arm64-v8a", "libmain_orig.so"], .bin "A")]⟩

/-- A tree with an old backup but no live library. -/
def c4bfs : FS := ⟨[(["base", "lib", "arm64-v8a", "libmain_orig.so"], .bin "A")]⟩

/-- An empty destination tree. -/
def c5fs : FS := ⟨[]⟩

/-- A destination tree with one unrelated file and no `split/lib` source. -/
def c6fs : FS := ⟨[(["base", "lib", "arm64-v8a", "libmain.so"], .bin "y")]⟩

/-- A working directory holding the signer's output artifact. -/
def c8fs : FS := ⟨[([".", "umamusume_patched-aligned-signed.apk"], .bin "S")]⟩

/-- A manifest without an `application` element. -/
def noAppManifest : XT String := .node "manifest" [] .nil

/-- A tree whose manifest lacks `application`. -/
def c7fs : FS := ⟨[(["base", "AndroidManifest.xml"], .xml noAppManifest)]⟩

/-! ## Filesystem lemmas. -/

theorem FS.lookup_write_self (fs : FS) (p : Path) (d : FileData) :
    (fs.write p d).lookup p = some d := by
  simp [FS.write, FS.lookup, lookupA]

theorem FS.lookup_write_ne (fs : FS) (p q : Path) (d : FileData) (h : p ≠ q) :
    (fs.write p d).lookup q = fs.lookup q := by
  simp [FS.write, FS.lookup, lookupA, h]

theorem lookupA_filter_ne_self (p : Path) (l : List (Path × FileData)) :
    lookupA p (l.filter (fun e => !(e.1 == p))) = none := by
  induction l with
  | nil => rfl
  | cons e t ih =>
    by_cases h : e.1 = p <;> simp [List.filter_cons, h, lookupA, ih]

theorem FS.lookup_erase_self (fs : FS) (p : Path) : (fs.erase p).lookup p = none :=
  lookupA_filter_ne_self p fs.files

theorem FS.lookup_rename_to (fs : FS) (p q : Path) (d : FileData)
    (h : fs.lookup p = some d) : (fs.rename p q).lookup q = some d := by
  simp only [FS.rename, FS.lookup] at h ⊢
  rw [h]
  simp [lookupA]

theorem FS.lookup_rename_from (fs : FS) (p q : Path) (d : FileData)
    (h : fs.lookup p = some d) (hne : q ≠ p) : (fs.rename p q).lookup p = none := by
  simp only [FS.rename, FS.lookup] at h ⊢
  rw [h]
  show lookupA p ((q, d) :: (fs.erase p).files) = none
  rw [lookupA, if_neg hne]
  exact FS.lookup_erase_self fs p

theorem lookup_foldl_write (g : Path → Path) (target : Path)
    (h : ∀ p, g p ≠ target) :
    ∀ (l : List (Path × FileData)) (fs : FS),
      (l.foldl (fun acc e => acc.write (g e.1) e.2) fs).lookup target = fs.lookup target := by
  intro l
  induction l with
  | nil => intro fs; rfl
  | cons e t ih =>
    intro fs
    rw [List.foldl_cons, ih, FS.lookup_write_ne _ _ _ _ (h e.1)]

/-! ## Claims C3, C4, C5, C6 (library substitution and tree merge). -/

theorem lib_ne_bak (base : Path) :
    (base ++ ["lib", "arm64-v8a", "libmain.so"] : Path) ≠
      base ++ ["lib", "arm64-v8a", "libmain_orig.so"] := by
  simp

/-- C3: when `lib/arm64-v8a/libmain.so` exists with content `a` and no backup
exists, substitution with replacement `b` leaves `a` in `libmain_orig.so` and
`b` in `libmain.so`. -/
theorem C3_substitution_preserves_original (base : Path) (fs : FS) (a b : String)
    (h1 : fs.lookup (base ++ ["lib", "arm64-v8a", "libmain.so"]) = some (.bin a))
    (h2 : fs.lookup (base ++ ["lib", "arm64-v8a", "libmain_orig.so"]) = none) :
    (modify_files b base fs).lookup (base ++ ["lib", "arm64-v8a", "libmain_orig.so"]) =
        some (.bin a) ∧
    (modify_files b base fs).lookup (base ++ ["lib", "arm64-v8a", "libmain.so"]) =
        some (.bin b) := by
  have hex : fs.pathExists (base ++ ["lib", "arm64-v8a", "libmain.so"]) = true := by
    simp [FS.pathExists, h1]
  simp only [modify_files, List.append_assoc, List.cons_append, List.nil_append, hex,
    if_true]
  refine ⟨?_, ?_⟩
  · rw [FS.lookup_write_ne _ _ _ _ (lib_ne_bak base)]
    exact FS.lookup_rename_to fs _ _ _ h1
  · exact FS.lookup_write_self _ _ _

/-- C3 witness. -/
theorem C3_witness :
    c3fs.lookup ["base", "lib", "arm64-v8a", "libmain.so"] = some (.bin "A") ∧
    (modify_files "B" ["base"] c3fs).lookup ["base", "lib", "arm64-v8a", "libmain_orig.so"] =
      some (.bin "A") ∧
    (modify_files "B" ["base"] c3fs).lookup ["base", "lib", "arm64-v8a", "libmain.so"] =
      some (.bin "B") :=
  ⟨by decide,
   (C3_substitution_preserves_original ["base"] c3fs "A" "B" (by decide) (by decide)).1,
   (C3_substitution_preserves_original ["base"] c3fs "A" "B" (by decide) (by decide)).2⟩

/-- C4 counterexample: with the live library (content `B1`) and an earlier
backup (content `A`) both present, substitution overwrites the backup: its
content afterwards is `B1`, not the pre-existing `A`. -/
theorem C4_counterexample :
    c4fs.lookup ["base", "lib", "arm64-v8a", "libmain_orig.so"] = some (.bin "A") ∧
    (modify_files "C" ["base"] c4fs).lookup ["base", "lib", "arm64-v8a", "libmain_orig.so"] =
      some (.bin "B1") ∧
    FileData.bin "B1" ≠ FileData.bin "A" := by
  decide

/-- C4 (amended): only one backup path exists per artifact, and a pre-existing
backup survives substitution exactly when the live artifact is absent; when the
live artifact exists, the rename replaces the backup with the live artifact's
pre-substitution content. -/
theorem C4_amended_backup_semantics (base : Path) (fs : FS) (b : String) (d : FileData) :
    (fs.pathExists (base ++ ["lib", "arm64-v8a", "libmain.so"]) = false →
      (modify_files b base fs).lookup (base ++ ["lib", "arm64-v8a", "libmain_orig.so"]) =
        fs.lookup (base ++ ["lib", "arm64-v8a", "libmain_orig.so"])) ∧
    (fs.lookup (base ++ ["lib", "arm64-v8a", "libmain.so"]) = some d →
      (modify_files b base fs).lookup (base ++ ["lib", "arm64-v8a", "libmain_orig.so"]) =
        some d) := by
  constructor
  · intro h
    simp only [modify_files, List.append_assoc, List.cons_append, List.nil_append, h,
      if_false, Bool.false_eq_true]
    exact FS.lookup_write_ne _ _ _ _ (lib_ne_bak base)
  · intro h
    have hex : fs.pathExists (base ++ ["lib", "arm64-v8a", "libmain.so"]) = true := by
      simp [FS.pathExists, h]
    simp only [modify_files, List.append_assoc, List.cons_append, List.nil_append, hex,
      if_true]
    rw [FS.lookup_write_ne _ _ _ _ (lib_ne_bak base)]
    exact FS.lookup_rename_to fs _ _ _ h

/-- C4 witness (for the amended claim): with a backup present and no live
artifact, the backup is untouched. -/
theorem C4_witness :
    c4bfs.pathExists ["base", "lib", "arm64-v8a", "libmain.so"] = false ∧
    (modify_files "C" ["base"] c4bfs).lookup ["base", "lib", "arm64-v8a", "libmain_orig.so"] =
      c4bfs.lookup ["base", "lib", "arm64-v8a", "libmain_orig.so"] :=
  ⟨by decide, (C4_amended_backup_semantics ["base"] c4bfs "C" (.bin "A")).1 (by decide)⟩

/-- C5: when `libmain.so` does not exist, the rename step is skipped (the
backup path keeps whatever it held — in particular none is created) and the
replacement content lands in `libmain.so`. -/
theorem C5_substitution_without_original (base : Path) (fs : FS) (b : String)
    (h : fs.pathExists (base ++ ["lib", "arm64-v8a", "libmain.so"]) = false) :
    (modify_files b base fs).lookup (base ++ ["lib", "arm64-v8a", "libmain_orig.so"]) =
      fs.lookup (base ++ ["lib", "arm64-v8a", "libmain_orig.so"]) ∧
    (modify_files b base fs).lookup (base ++ ["lib", "arm64-v8a", "libmain.so"]) =
      some (.bin b) := by
  simp only [modify_files, List.append_assoc, List.cons_append, List.nil_append, h,
    if_false, Bool.false_eq_true]
  exact ⟨FS.lookup_write_ne _ _ _ _ (lib_ne_bak base), FS.lookup_write_self _ _ _⟩

/-- C5 witness. -/
theorem C5_witness :
    c5fs.pathExists ["base", "lib", "arm64-v8a", "libmain.so"] = false ∧
    (modify_files "B" ["base"] c5fs).lookup ["base", "lib", "arm64-v8a", "libmain_orig.so"] =
      none ∧
    (modify_files "B" ["base"] c5fs).lookup ["base", "lib", "arm64-v8a", "libmain.so"] =
      some (.bin "B") :=
  ⟨by decide,
   ((C5_substitution_without_original ["base"] c5fs "B" (by decide)).1).trans (by decide),
   (C5_substitution_without_original ["base"] c5fs "B" (by decide)).2⟩

/-- C6: when the source subtree `split/lib` does not exist, the merge leaves
the destination tree unchanged (and, being a total function here, does not
fail). -/
theorem C6_merge_noop (base split : Path) (fs : FS)
    (h : fs.pathExists (split ++ ["lib"]) = false) :
    merge_apks base split fs = fs := by
  simp [merge_apks, h]

/-- C6 witness. -/
theorem C6_witness :
    c6fs.pathExists ["split", "lib"] = false ∧ merge_apks ["base"] ["split"] c6fs = c6fs :=
  ⟨by decide, C6_merge_noop ["base"] ["split"] c6fs (by decide)⟩

/-! ## Claims C8 and C10 (finalize and recompile/sign ordering). -/

/-- C8: finalizing fails with the explicit missing-artifact error naming
`./umamusume_patched-aligned-signed.apk` exactly when that artifact is absent;
when it is a present file, finalizing renames it to `./umamusume.apk`. -/
theorem C8_finalize_artifact (fs : FS) (d : FileData) :
    ((finalize_apk ["."] "umamusume.apk" fs).2 =
        some (.expectedArtifactMissing [".", "umamusume_patched-aligned-signed.apk"]) ↔
      fs.pathExists [".", "umamusume_patched-aligned-signed.apk"] = false) ∧
    (fs.lookup [".", "umamusume_patched-aligned-signed.apk"] = some d →
      (finalize_apk ["."] "umamusume.apk" fs).2 = none ∧
      (finalize_apk ["."] "umamusume.apk" fs).1.lookup [".", "umamusume.apk"] = some d ∧
      (finalize_apk ["."] "umamusume.apk" fs).1.lookup
        [".", "umamusume_patched-aligned-signed.apk"] = none) := by
  constructor
  · cases hex : fs.pathExists [".", "umamusume_patched-aligned-signed.apk"] <;>
      simp [finalize_apk, hex]
  · intro h
    have hex : fs.pathExists [".", "umamusume_patched-aligned-signed.apk"] = true := by
      simp [FS.pathExists, h]
    have hfin : finalize_apk ["."] "umamusume.apk" fs =
        (fs.rename [".", "umamusume_patched-aligned-signed.apk"] [".", "umamusume.apk"],
          none) := by
      simp [finalize_apk, hex]
    rw [hfin]
    exact ⟨rfl, FS.lookup_rename_to fs _ _ _ h,
      FS.lookup_rename_from fs _ _ _ h (by decide)⟩

/-- C8 witness. -/
theorem C8_witness :
    c8fs.lookup [".", "umamusume_patched-aligned-signed.apk"] = some (.bin "S") ∧
    (finalize_apk ["."] "umamusume.apk" c8fs).2 = none ∧
    (finalize_apk ["."] "umamusume.apk" c8fs).1.lookup [".", "umamusume.apk"] =
      some (.bin "S") :=
  ⟨by decide,
   ((C8_finalize_artifact c8fs (.bin "S")).2 (by decide)).1,
   ((C8_finalize_artifact c8fs (.bin "S")).2 (by decide)).2.1⟩

/-- C10: with the keystore absent, the recompiler has already been invoked when
the keystore-missing failure is raised (the recorded trace is exactly
`[recompiling]`), and the signer is never invoked — also not when the
recompiler itself fails. -/
theorem C10_keystore_check_after_recompile (sOk : Bool) (outB signB : String) (base : Path)
    (fs : FS) (h : fs.pathExists ["debug.keystore"] = false) :
    (recompile_and_sign true sOk outB signB base ["."] ["debug.keystore"] fs).1 =
      [.recompiling] ∧
    (recompile_and_sign true sOk outB signB base ["."] ["debug.keystore"] fs).2.2 =
      some (.keystoreMissing ["debug.keystore"]) ∧
    Stage.signing ∉ (recompile_and_sign true sOk outB signB base ["."] ["debug.keystore"] fs).1 ∧
    Stage.signing ∉ (recompile_and_sign false sOk outB signB base ["."] ["debug.keystore"] fs).1 := by
  have hor := h
  simp only [FS.pathExists, Bool.or_eq_false_iff] at hor
  have hp : (fs.write [".", "umamusume_patched.apk"] (.bin outB)).pathExists
      ["debug.keystore"] = false := by
    simp only [FS.pathExists, FS.write, FS.lookup, lookupA, List.any_cons,
      Bool.or_eq_false_iff]
    refine ⟨?_, by decide, hor.2⟩
    rw [if_neg (by decide)]
    exact hor.1
  simp [recompile_and_sign, hp]

/-- C10 witness. -/
theorem C10_witness :
    c5fs.pathExists ["debug.keystore"] = false ∧
    (recompile_and_sign true true "o" "s" ["base"] ["."] ["debug.keystore"] c5fs).2.2 =
      some (.keystoreMissing ["debug.keystore"]) ∧
    Stage.signing ∉
      (recompile_and_sign true true "o" "s" ["base"] ["."] ["debug.keystore"] c5fs).1 :=
  ⟨by decide,
   (C10_keystore_check_after_recompile true "o" "s" ["base"] c5fs (by decide)).2.1,
   (C10_keystore_check_after_recompile true "o" "s" ["base"] c5fs (by decide)).2.2.1⟩

/-! ## Claims C2, C9, C7 and the C1 counterexample (manifest patching). -/

/-- C2: on the minimal manifest, the patch produces exactly one `provider`
child of `application` — the written document is `minPatched`, whose
application element has the single child `minProvider` (appended last) — with
the claimed qualified name, flags, authority, and exactly one `meta-data`
child referencing `@xml/provider_paths`; the last conjunct fixes the written
bytes. -/
theorem C2_minimal_manifest_scenario :
    add_provider_to_manifest ["base"] fsMin =
      .ok (fsMin.write ["base", "AndroidManifest.xml"] (.xml minPatched)) ∧
    XTs.countTag "provider" (.cons minProvider .nil) = 1 ∧
    XT.tagOf minProvider = "provider" ∧
    lookupA "android:name" minProvider.attrsOf = some providerName ∧
    lookupA "android:exported" minProvider.attrsOf = some "false" ∧
    lookupA "android:grantUriPermissions" minProvider.attrsOf = some "true" ∧
    lookupA "android:authorities" minProvider.attrsOf = some "$\x7bapplicationId\x7d.provider" ∧
    XTs.countTag "meta-data" minProvider.childrenOf = 1 ∧
    lookupA "android:resource" minMetaData.attrsOf = some "@xml/provider_paths" ∧
    emitDoc minPatched = "<?xml version='1.0' encoding='utf-8'?>\n<manifest><application><provider android:name=\"androidx.core.content.FileProvider\" android:authorities=\"$\x7bapplicationId\x7d.provider\" android:exported=\"false\" android:grantUriPermissions=\"true\"><meta-data android:name=\"android.support.FILE_PROVIDER_PATHS\" android:resource=\"@xml/provider_paths\" /></provider></application></manifest>" := by
  decide

/-- C1 counterexample: on the minimal manifest the first run succeeds, but the
second run does not find the provider and insert nothing — it fails to parse
the first run's output, because the inserted literal `android:`-prefixed
attributes were serialized without any `xmlns:android` declaration. -/
theorem C1_counterexample :
    add_provider_to_manifest ["base"] fsMin = .ok fsMin1 ∧
    add_provider_to_manifest ["base"] fsMin1 =
      .error (.ManifestMalformed "unbound prefix: android") := by
  decide

/-- C9: when a provider with the target namespaced name is already among the
direct provider children of `application`, the patch returns the filesystem
unchanged — no file write at all. -/
theorem C9_existing_provider_no_write (base : Path) (fs : FS) (raw : XT String) (rt : QN)
    (ras : List (QN × String)) (rcs : XTs QN) (app : XT QN)
    (h1 : fs.lookup (base ++ ["AndroidManifest.xml"]) = some (.xml raw))
    (h2 : resolveE envInit raw = .ok (.node rt ras rcs))
    (h3 : findTag (.plain "application") rcs = some app)
    (h4 : provPresent app.childrenOf = true) :
    add_provider_to_manifest base fs = .ok fs := by
  simp only [add_provider_to_manifest, h1, h2, h3, h4, if_true]

/-- C9 witness. -/
theorem C9_witness :
    provPresent patchedApp.childrenOf = true ∧
    add_provider_to_manifest ["base"] fsPatched = .ok fsPatched :=
  ⟨by decide,
   C9_existing_provider_no_write ["base"] fsPatched patchedRaw (.plain "manifest") []
     patchedChildren patchedApp (by decide) (by decide) (by decide) (by decide)⟩

theorem manifest_lookup_copytree (fs : FS) :
    (copytree (["split"] ++ ["lib"]) (["base"] ++ ["lib"]) fs).lookup
      ["base", "AndroidManifest.xml"] = fs.lookup ["base", "AndroidManifest.xml"] := by
  unfold copytree
  exact lookup_foldl_write (fun p => ["base", "lib"] ++ p.drop 2) _
    (by intro p h; simp at h) _ fs

theorem manifest_lookup_merge (fs : FS) :
    (merge_apks ["base"] ["split"] fs).lookup ["base", "AndroidManifest.xml"] =
      fs.lookup ["base", "AndroidManifest.xml"] := by
  unfold merge_apks
  split
  · exact manifest_lookup_copytree fs
  · rfl

theorem manifest_lookup_create (fs : FS) :
    (create_provider_paths ["base"] fs).lookup ["base", "AndroidManifest.xml"] =
      fs.lookup ["base", "AndroidManifest.xml"] :=
  FS.lookup_write_ne _ _ _ _ (by decide)

/-- C7: when the manifest parses but has no `application` element, the pipeline
stops at manifest patching with the structure error: the recorded stages end at
`patchingManifest`, no later stage is invoked, and the manifest file at the
abort point still holds the original document. -/
theorem C7_missing_application_aborts (fs : FS) (raw : XT String) (rt : QN)
    (ras : List (QN × String)) (rcs : XTs QN) (libB outB signB : String) (rOk sOk : Bool)
    (h1 : fs.lookup ["base", "AndroidManifest.xml"] = some (.xml raw))
    (h2 : resolveE envInit raw = .ok (.node rt ras rcs))
    (h3 : findTag (.plain "application") rcs = none) :
    (pipeline libB outB signB rOk sOk fs).1 = [.merging, .creatingPaths, .patchingManifest] ∧
    (pipeline libB outB signB rOk sOk fs).2.2 = some (.manifest .ManifestStructureError) ∧
    (pipeline libB outB signB rOk sOk fs).2.1.lookup ["base", "AndroidManifest.xml"] =
      some (.xml raw) ∧
    Stage.substituting ∉ (pipeline libB outB signB rOk sOk fs).1 ∧
    Stage.recompiling ∉ (pipeline libB outB signB rOk sOk fs).1 ∧
    Stage.signing ∉ (pipeline libB outB signB rOk sOk fs).1 ∧
    Stage.finalizing ∉ (pipeline libB outB signB rOk sOk fs).1 := by
  have hm : (create_provider_paths ["base"] (merge_apks ["base"] ["split"] fs)).lookup
      ["base", "AndroidManifest.xml"] = some (.xml raw) := by
    rw [manifest_lookup_create, manifest_lookup_merge]; exact h1
  have hap : add_provider_to_manifest ["base"]
      (create_provider_paths ["base"] (merge_apks ["base"] ["split"] fs)) =
      .error .ManifestStructureError := by
    simp only [add_provider_to_manifest, List.cons_append, List.nil_append, hm, h2, h3]
  have hpipe : pipeline libB outB signB rOk sOk fs =
      ([.merging, .creatingPaths, .patchingManifest],
        create_provider_paths ["base"] (merge_apks ["base"] ["split"] fs),
        some (.manifest .ManifestStructureError)) := by
    simp only [pipeline, hap]
  rw [hpipe]
  exact ⟨rfl, rfl, hm,
    (by decide : Stage.substituting ∉ [Stage.merging, Stage.creatingPaths, Stage.patchingManifest]),
    (by decide : Stage.recompiling ∉ [Stage.merging, Stage.creatingPaths, Stage.patchingManifest]),
    (by decide : Stage.signing ∉ [Stage.merging, Stage.creatingPaths, Stage.patchingManifest]),
    (by decide : Stage.finalizing ∉ [Stage.merging, Stage.creatingPaths, Stage.patchingManifest])⟩

/-- C7 witness. -/
theorem C7_witness :
    resolveE envInit noAppManifest = .ok (.node (.plain "manifest") [] .nil) ∧
    (pipeline "l" "o" "s" true true c7fs).2.2 = some (.manifest .ManifestStructureError) ∧
    (pipeline "l" "o" "s" true true c7fs).1 = [.merging, .creatingPaths, .patchingManifest] :=
  ⟨by decide,
   (C7_missing_application_aborts c7fs noAppManifest (.plain "manifest") [] .nil
     "l" "o" "s" true true (by decide) (by decide) (by decide)).2.1,
   (C7_missing_application_aborts c7fs noAppManifest (.plain "manifest") [] .nil
     "l" "o" "s" true true (by decide) (by decide) (by decide)).1⟩

/-! ## Association-list lemmas. -/

theorem lookupA_some_mem {β : Type} {α : Type} [DecidableEq α] (k : α) (v : β) :
    ∀ l : List (α × β), lookupA k l = some v → (k, v) ∈ l := by
  intro l
  induction l with
  | nil => intro h; cases h
  | cons e t ih =>
    obtain ⟨k', v'⟩ := e
    intro h
    rw [lookupA] at h
    by_cases hk : k' = k
    · rw [if_pos hk] at h
      cases h
      subst hk
      exact List.mem_cons_self _ _
    · rw [if_neg hk] at h
      exact List.mem_cons_of_mem _ (ih h)

theorem lookupA_isSome_of_mem {β : Type} {α : Type} [DecidableEq α] (k : α) (v : β) :
    ∀ l : List (α × β), (k, v) ∈ l → (lookupA k l).isSome = true := by
  intro l
  induction l with
  | nil => intro h; cases h
  | cons e t ih =>
    obtain ⟨k', v'⟩ := e
    intro h
    rw [lookupA]
    by_cases hk : k' = k
    · rw [if_pos hk]; rfl
    · rw [if_neg hk]
      rcases List.mem_cons.1 h with h1 | h1
      · cases h1; exact absurd rfl hk
      · exact ih h1

theorem lookupA_eq_of_mem_forall {β : Type} {α : Type} [DecidableEq α] (k : α) (v : β) :
    ∀ l : List (α × β), (k, v) ∈ l → (∀ pr ∈ l, pr.1 = k → pr.2 = v) →
      lookupA k l = some v := by
  intro l
  induction l with
  | nil => intro h; cases h
  | cons e t ih =>
    obtain ⟨k', v'⟩ := e
    intro h hall
    rw [lookupA]
    by_cases hk : k' = k
    · rw [if_pos hk]
      have := hall (k', v') (List.mem_cons_self _ _) hk
      simp only at this
      rw [this]
    · rw [if_neg hk]
      rcases List.mem_cons.1 h with h1 | h1
      · cases h1; exact absurd rfl hk
      · exact ih h1 (fun pr hpr => hall pr (List.mem_cons_of_mem _ hpr))

theorem lookupA_none_of_forall {β : Type} {α : Type} [DecidableEq α] (k : α) :
    ∀ l : List (α × β), (∀ pr ∈ l, pr.1 ≠ k) → lookupA k l = none := by
  intro l
  induction l with
  | nil => intro _; rfl
  | cons e t ih =>
    obtain ⟨k', v'⟩ := e
    intro hall
    rw [lookupA, if_neg (hall (k', v') (List.mem_cons_self _ _))]
    exact ih (fun pr hpr => hall pr (List.mem_cons_of_mem _ hpr))

theorem lookupA_append {β : Type} {α : Type} [DecidableEq α] (k : α) :
    ∀ l1 l2 : List (α × β),
      lookupA k (l1 ++ l2) =
        match lookupA k l1 with
        | some v => some v
        | none => lookupA k l2 := by
  intro l1 l2
  induction l1 with
  | nil => rfl
  | cons e t ih =>
    obtain ⟨k', v'⟩ := e
    rw [List.cons_append, lookupA, lookupA]
    by_cases hk : k' = k
    · rw [if_pos hk, if_pos hk]
    · rw [if_neg hk, if_neg hk, ih]

theorem lookupA_append_left_none {β : Type} {α : Type} [DecidableEq α] (k : α)
    (l1 l2 : List (α × β)) (h : ∀ pr ∈ l1, pr.1 ≠ k) :
    lookupA k (l1 ++ l2) = lookupA k l2 := by
  rw [lookupA_append, lookupA_none_of_forall k l1 h]

/-! ## String-splitting lemmas. -/

theorem splitFirstL_none_of_not_mem (c : Char) :
    ∀ l : List Char, c ∉ l → splitFirstL c l = none := by
  intro l
  induction l with
  | nil => intro _; rfl
  | cons x xs ih =>
    intro h
    have hx : ¬ x = c := fun he => h (by rw [← he]; exact List.mem_cons_self x xs)
    rw [splitFirstL, if_neg hx, ih (fun hx2 => h (List.mem_cons_of_mem x hx2))]

theorem splitFirstL_of_none (c : Char) :
    ∀ l : List Char, splitFirstL c l = none → c ∉ l := by
  intro l
  induction l with
  | nil => intro _ h; cases h
  | cons x xs ih =>
    intro h hmem
    rw [splitFirstL] at h
    by_cases hx : x = c
    · rw [if_pos hx] at h; cases h
    · rw [if_neg hx] at h
      rcases List.mem_cons.1 hmem with h1 | h1
      · exact hx h1.symm
      · cases hs : splitFirstL c xs with
        | none => exact ih hs h1
        | some pr => rw [hs] at h; cases h

theorem splitFirstL_append (c : Char) :
    ∀ a b : List Char, c ∉ a → splitFirstL c (a ++ c :: b) = some (a, b) := by
  intro a
  induction a with
  | nil => intro b _; rw [List.nil_append, splitFirstL, if_pos rfl]
  | cons x xs ih =>
    intro b h
    have hx : x ≠ c := fun hx => h (hx ▸ List.mem_cons_self x xs)
    rw [List.cons_append, splitFirstL, if_neg hx,
      ih b (fun hx2 => h (List.mem_cons_of_mem x hx2))]

theorem splitC_none_of_not_mem (c : Char) (s : String) (h : c ∉ s.data) :
    splitC c s = none := by
  rw [splitC, splitFirstL_none_of_not_mem c s.data h]

theorem splitC_not_mem_of_none (c : Char) (s : String) (h : splitC c s = none) :
    c ∉ s.data := by
  rw [splitC] at h
  cases hs : splitFirstL c s.data with
  | none => exact splitFirstL_of_none c s.data hs
  | some pr => rw [hs] at h; cases h

theorem splitC_prefixed (p l : String) (hp : splitC ':' p = none) :
    splitC ':' (p ++ ":" ++ l) = some (p, l) := by
  have hdata : (p ++ ":" ++ l).data = p.data ++ ':' :: l.data := by
    rw [String.data_append, String.data_append]
    simp
  rw [splitC, hdata, splitFirstL_append ':' p.data l.data (splitC_not_mem_of_none ':' p hp)]

/-! ## Generated-prefix lemmas. -/

theorem digitCh_ne_colon : ∀ n : Nat, digitCh n ≠ ':'
  | 0 => by decide
  | 1 => by decide
  | 2 => by decide
  | 3 => by decide
  | 4 => by decide
  | 5 => by decide
  | 6 => by decide
  | 7 => by decide
  | 8 => by decide
  | 9 => by decide
  | (_ + 10) => by
    show ('*' : Char) ≠ ':'
    decide

theorem decChars_no_colon : ∀ f n : Nat, ':' ∉ decChars f n := by
  intro f
  induction f with
  | zero => intro n h; cases h
  | succ f ih =>
    intro n
    rw [decChars]
    by_cases h10 : n < 10
    · rw [if_pos h10]
      intro hmem
      rw [List.mem_singleton] at hmem
      exact digitCh_ne_colon n hmem.symm
    · rw [if_neg h10]
      intro hmem
      rcases List.mem_append.1 hmem with h1 | h1
      · exact ih (n / 10) h1
      · rw [List.mem_singleton] at h1
        exact digitCh_ne_colon (n % 10) h1.symm

theorem ns_append_data (s : String) : ("ns" ++ s : String).data = 'n' :: 's' :: s.data := by
  rw [String.data_append]
  rfl

theorem ns_append_ne (s : String) :
    ("ns" ++ s : String) ≠ "xmlns" ∧ ("ns" ++ s : String) ≠ "" ∧
    ("ns" ++ s : String) ≠ "xml" ∧ ("ns" ++ s : String) ≠ "android" := by
  refine ⟨?_, ?_, ?_, ?_⟩ <;>
    (intro h; have hd := congrArg String.data h; rw [ns_append_data] at hd; simp at hd)

theorem genPfx_splitC (n : Nat) : splitC ':' ("ns" ++ decStr n) = none := by
  apply splitC_none_of_not_mem
  rw [ns_append_data]
  intro hmem
  rcases List.mem_cons.1 hmem with h1 | h1
  · cases h1
  rcases List.mem_cons.1 h1 with h2 | h2
  · cases h2
  exact decChars_no_colon (n + 1) n h2

/-! ## Sorting-membership lemmas. -/

theorem mem_insertByKey (x y : String × String) :
    ∀ l, x ∈ insertByKey y l ↔ x = y ∨ x ∈ l := by
  intro l
  induction l with
  | nil => simp [insertByKey]
  | cons z t ih =>
    rw [insertByKey]
    by_cases hc : compare y.1 z.1 = Ordering.lt
    · rw [if_pos hc]
      simp
    · rw [if_neg hc]
      simp only [List.mem_cons, ih]
      tauto

theorem mem_sortByKey (x : String × String) : ∀ l, x ∈ sortByKey l ↔ x ∈ l := by
  intro l
  induction l with
  | nil => simp [sortByKey]
  | cons z t ih =>
    rw [sortByKey, mem_insertByKey]
    simp [ih]

/-! ## Parse-shape lemmas: every name `resolveE` produces is either namespaced
or a colon-free plain name other than `xmlns`. -/

theorem resolveTagR_form (env : Env) (t : String) (q : QN)
    (h : resolveTagR env t = .ok q) : FormTag q := by
  rw [resolveTagR] at h
  cases hs : splitC ':' t with
  | none =>
    simp only [hs] at h
    cases hd : lookupA "" env with
    | none =>
      simp only [hd] at h
      cases h
      exact hs
    | some u =>
      simp only [hd] at h
      by_cases hu : u = ""
      · rw [if_pos hu] at h
        cases h
        exact hs
      · rw [if_neg hu] at h
        cases h
        trivial
  | some pr =>
    obtain ⟨p, l⟩ := pr
    simp only [hs] at h
    cases hd : lookupA p env with
    | none => simp only [hd] at h; cases h
    | some u => simp only [hd] at h; cases h; trivial

theorem resolveKeyR_form (env : Env) (k : String) (q : QN) (hxm : k ≠ "xmlns")
    (h : resolveKeyR env k = .ok q) : FormKey q := by
  rw [resolveKeyR] at h
  cases hs : splitC ':' k with
  | none =>
    simp only [hs] at h
    cases h
    exact ⟨hs, hxm⟩
  | some pr =>
    obtain ⟨p, l⟩ := pr
    simp only [hs] at h
    cases hd : lookupA p env with
    | none => simp only [hd] at h; cases h
    | some u => simp only [hd] at h; cases h; trivial

theorem nsDeclOf_xmlns_isSome (v : String) : (nsDeclOf "xmlns" v).isSome = true := by
  rw [nsDeclOf, if_pos rfl]
  rfl

theorem resolveAttrs_form (env : Env) :
    ∀ (as : List (String × String)) (qs : List (QN × String)),
      resolveAttrs env as = .ok qs → ∀ pr ∈ qs, FormKey pr.1 := by
  intro as
  induction as with
  | nil =>
    intro qs h
    cases h
    intro pr hpr
    cases hpr
  | cons e rest ih =>
    obtain ⟨k, v⟩ := e
    intro qs h
    rw [resolveAttrs] at h
    by_cases hd : (nsDeclOf k v).isSome = true
    · rw [if_pos hd] at h
      exact ih qs h
    · rw [if_neg hd] at h
      cases hk : resolveKeyR env k with
      | error e2 => simp only [hk] at h; cases h
      | ok q =>
        simp only [hk] at h
        cases hr : resolveAttrs env rest with
        | error e2 => simp only [hr] at h; cases h
        | ok qs2 =>
          simp only [hr] at h
          cases h
          intro pr hpr
          rcases List.mem_cons.1 hpr with h1 | h1
          · cases h1
            have hxm : k ≠ "xmlns" := by
              intro hk2
              rw [hk2] at hd
              exact hd (nsDeclOf_xmlns_isSome v)
            exact resolveKeyR_form env k q hxm hk
          · exact ih qs2 hr pr h1

mutual
theorem resolveE_form : ∀ (env : Env) (x : XT String) (e : XT QN),
    resolveE env x = .ok e → FormE e
  | env, .node t as cs, e, h => by
    simp only [resolveE] at h
    cases ht : resolveTagR (nsDecls as ++ env) t with
    | error e2 => simp only [ht] at h; cases h
    | ok t2 =>
      simp only [ht] at h
      cases ha : resolveAttrs (nsDecls as ++ env) as with
      | error e2 => simp only [ha] at h; cases h
      | ok as2 =>
        simp only [ha] at h
        cases hc : resolveL (nsDecls as ++ env) cs with
        | error e2 => simp only [hc] at h; cases h
        | ok cs2 =>
          simp only [hc] at h
          cases h
          exact ⟨resolveTagR_form _ t t2 ht, resolveAttrs_form _ as as2 ha,
            resolveL_form _ cs cs2 hc⟩

theorem resolveL_form : ∀ (env : Env) (xs : XTs String) (es : XTs QN),
    resolveL env xs = .ok es → FormL es
  | env, .nil, es, h => by
    simp only [resolveL] at h
    cases h
    trivial
  | env, .cons x xs, es, h => by
    simp only [resolveL] at h
    cases hx : resolveE env x with
    | error e2 => simp only [hx] at h; cases h
    | ok y =>
      simp only [hx] at h
      cases hxs : resolveL env xs with
      | error e2 => simp only [hxs] at h; cases h
      | ok ys =>
        simp only [hxs] at h
        cases h
        exact ⟨resolveE_form env x y hx, resolveL_form env xs ys hxs⟩
end

/-! ## Round-trip lemmas: reparsing a serialized good document yields its
canonical form. -/

theorem nsDeclOf_prefixed_none (p l v : String) (hp : splitC ':' p = none)
    (hxm : p ≠ "xmlns") : nsDeclOf (p ++ ":" ++ l) v = none := by
  have hsp := splitC_prefixed p l hp
  have hne : p ++ ":" ++ l ≠ "xmlns" := by
    intro hEq
    rw [hEq] at hsp
    have hx : splitC ':' "xmlns" = none := by decide
    rw [hx] at hsp
    cases hsp
  rw [nsDeclOf, if_neg hne]
  simp only [hsp]
  rw [if_neg hxm]

theorem resolveKeyR_serKey (table : List (String × String)) (env : Env) (k : QN)
    (hG : GoodKey table env k) :
    resolveKeyR env (serKeyQ table k) = .ok (canonKeyQ table env k) := by
  cases k with
  | plain s =>
    obtain ⟨hxm, hd⟩ := hG
    rcases hd with hnone | ⟨p, l, hsp, hpxm, hsome⟩
    · simp only [serKeyQ, resolveKeyR, canonKeyQ, hnone]
    · obtain ⟨u, hu⟩ := Option.isSome_iff_exists.1 hsome
      simp only [serKeyQ, resolveKeyR, canonKeyQ, hsp, hu]
  | ns u l =>
    obtain ⟨p, hT, hpxm, hpc, hsome⟩ := hG
    obtain ⟨u', hu'⟩ := Option.isSome_iff_exists.1 hsome
    simp only [serKeyQ, canonKeyQ, hT, hu', resolveKeyR, splitC_prefixed p l hpc]

theorem resolveTagR_serKey (table : List (String × String)) (env : Env) (t : QN)
    (hG : GoodTag table env t) (hE0 : lookupA "" env = none) :
    resolveTagR env (serKeyQ table t) = .ok (canonTagQ table env t) := by
  cases t with
  | plain s =>
    rcases hG with hnone | ⟨p, l, hsp, hsome⟩
    · simp only [serKeyQ, resolveTagR, canonTagQ, hnone, hE0]
    · obtain ⟨u, hu⟩ := Option.isSome_iff_exists.1 hsome
      simp only [serKeyQ, resolveTagR, canonTagQ, hsp, hu]
  | ns u l =>
    obtain ⟨p, hT, hpc, hsome⟩ := hG
    obtain ⟨u', hu'⟩ := Option.isSome_iff_exists.1 hsome
    simp only [serKeyQ, canonTagQ, hT, hu', resolveTagR, splitC_prefixed p l hpc]

theorem nsDeclOf_serKey_none (table : List (String × String)) (env : Env) (k : QN)
    (v : String) (hG : GoodKey table env k) : nsDeclOf (serKeyQ table k) v = none := by
  cases k with
  | plain s =>
    obtain ⟨hxm, hd⟩ := hG
    rw [serKeyQ, nsDeclOf, if_neg hxm]
    rcases hd with hnone | ⟨p, l, hsp, hpxm, _⟩
    · simp only [hnone]
    · simp only [hsp, if_neg hpxm]
  | ns u l =>
    obtain ⟨p, hT, hpxm, hpc, _⟩ := hG
    rw [show serKeyQ table (.ns u l) = p ++ ":" ++ l by simp only [serKeyQ, hT]]
    exact nsDeclOf_prefixed_none p l v hpc hpxm

theorem resolveAttrs_serAttrs (table : List (String × String)) (env : Env) :
    ∀ as : List (QN × String), (∀ pr ∈ as, GoodKey table env pr.1) →
      resolveAttrs env (as.map (fun pr => (serKeyQ table pr.1, pr.2))) =
        .ok (as.map (fun pr => (canonKeyQ table env pr.1, pr.2))) := by
  intro as
  induction as with
  | nil => intro _; rfl
  | cons e rest ih =>
    obtain ⟨k, v⟩ := e
    intro hG
    have hGk : GoodKey table env k := hG (k, v) (List.mem_cons_self _ _)
    rw [List.map_cons, resolveAttrs, nsDeclOf_serKey_none table env k v hGk,
      if_neg (by decide : ¬((none : Option (String × String)).isSome = true)),
      resolveKeyR_serKey table env k hGk,
      ih (fun pr hpr => hG pr (List.mem_cons_of_mem _ hpr)), List.map_cons]

theorem nsDecls_serAttrs (table : List (String × String)) (env : Env) :
    ∀ as : List (QN × String), (∀ pr ∈ as, GoodKey table env pr.1) →
      nsDecls (as.map (fun pr => (serKeyQ table pr.1, pr.2))) = [] := by
  intro as
  induction as with
  | nil => intro _; rfl
  | cons e rest ih =>
    obtain ⟨k, v⟩ := e
    intro hG
    have hGk : GoodKey table env k := hG (k, v) (List.mem_cons_self _ _)
    rw [List.map_cons, nsDecls, List.filterMap_cons]
    rw [show nsDeclOf (serKeyQ table k, v).1 (serKeyQ table k, v).2 = none from
      nsDeclOf_serKey_none table env k v hGk]
    exact ih (fun pr hpr => hG pr (List.mem_cons_of_mem _ hpr))

theorem resolveAttrs_decls_skip (env : Env) :
    ∀ xs ys : List (String × String),
      (∀ pr ∈ xs, (nsDeclOf pr.1 pr.2).isSome = true) →
      resolveAttrs env (xs ++ ys) = resolveAttrs env ys := by
  intro xs
  induction xs with
  | nil => intro ys _; rw [List.nil_append]
  | cons e rest ih =>
    obtain ⟨k, v⟩ := e
    intro ys hall
    rw [List.cons_append, resolveAttrs, if_pos (hall (k, v) (List.mem_cons_self _ _))]
    exact ih ys (fun pr hpr => hall pr (List.mem_cons_of_mem _ hpr))

theorem nsDecls_append (xs ys : List (String × String)) :
    nsDecls (xs ++ ys) = nsDecls xs ++ nsDecls ys := by
  rw [nsDecls, nsDecls, nsDecls, List.filterMap_append]

mutual
theorem resolveE_serE : ∀ (table : List (String × String)) (env : Env) (e : XT QN),
    lookupA "" env = none → GoodE table env e →
    resolveE env (serE table e) = .ok (canonE table env e)
  | table, env, .node t as cs, hE0, hG => by
    obtain ⟨hT, hA, hC⟩ := hG
    simp only [serE, resolveE, canonE]
    rw [nsDecls_serAttrs table env as hA, List.nil_append,
      resolveTagR_serKey table env t hT hE0,
      resolveAttrs_serAttrs table env as hA,
      resolveL_serL table env cs hE0 hC]

theorem resolveL_serL : ∀ (table : List (String × String)) (env : Env) (es : XTs QN),
    lookupA "" env = none → GoodL table env es →
    resolveL env (serL table es) = .ok (canonL table env es)
  | _, _, .nil, _, _ => rfl
  | table, env, .cons x xs, hE0, hG => by
    obtain ⟨hx, hxs⟩ := hG
    simp only [serL, resolveL, canonL]
    rw [resolveE_serE table env x hE0 hx, resolveL_serL table env xs hE0 hxs]
end

theorem bor_true {a b : Bool} : (a || b) = true ↔ a = true ∨ b = true := by
  cases a <;> cases b <;> simp

/-! ## Namespace-use and URI-collection lemmas. -/

theorem mem_addUri (u : String) (acc : List String) (k : QN) :
    u ∈ addUri acc k ↔ u ∈ acc ∨ keyUses u k = true := by
  cases k with
  | plain s => simp [addUri, keyUses]
  | ns u' l =>
    rw [addUri]
    by_cases hm : u' ∈ acc
    · rw [if_pos hm]
      simp only [keyUses, beq_iff_eq]
      constructor
      · exact Or.inl
      · rintro (h | h)
        · exact h
        · exact h ▸ hm
    · rw [if_neg hm]
      simp only [keyUses, beq_iff_eq, List.mem_append, List.mem_singleton]
      constructor
      · rintro (h | h)
        · exact Or.inl h
        · exact Or.inr h.symm
      · rintro (h | h)
        · exact Or.inl h
        · exact Or.inr h.symm

theorem mem_foldl_addUri (u : String) :
    ∀ (as : List (QN × String)) (acc : List String),
      u ∈ as.foldl (fun a pr => addUri a pr.1) acc ↔
        u ∈ acc ∨ (as.any (fun pr => keyUses u pr.1)) = true := by
  intro as
  induction as with
  | nil => intro acc; simp
  | cons e rest ih =>
    intro acc
    rw [List.foldl_cons, List.any_cons, ih, mem_addUri]
    simp only [Bool.or_eq_true]
    tauto

mutual
theorem mem_collectE (u : String) : ∀ (e : XT QN) (acc : List String),
    u ∈ collectE acc e ↔ u ∈ acc ∨ usesE u e = true
  | .node t as cs, acc => by
    rw [collectE, usesE, mem_collectL u cs _, mem_foldl_addUri, mem_addUri]
    simp only [Bool.or_eq_true]
    tauto

theorem mem_collectL (u : String) : ∀ (es : XTs QN) (acc : List String),
    u ∈ collectL acc es ↔ u ∈ acc ∨ usesL u es = true
  | .nil, acc => by simp [collectL, usesL]
  | .cons x xs, acc => by
    rw [collectL, usesL, mem_collectL u xs _, mem_collectE u x acc]
    simp only [Bool.or_eq_true]
    tauto
end

theorem mem_collectUris (u : String) (e : XT QN) :
    u ∈ collectUris e ↔ usesE u e = true := by
  rw [collectUris, mem_collectE]
  simp

/-! ## Prefix-table lemmas. -/

theorem mkTableAux_entries (P : String → String → Prop)
    (hwk : ∀ pr ∈ wellKnown, P pr.1 pr.2)
    (hgen : ∀ u n, lookupA u wellKnown = none → P u ("ns" ++ decStr n)) :
    ∀ (us : List String) (acc : List (String × String)),
      (∀ pr ∈ acc, P pr.1 pr.2) → ∀ pr ∈ mkTableAux acc us, P pr.1 pr.2 := by
  intro us
  induction us with
  | nil =>
    intro acc hacc
    rw [mkTableAux]
    exact hacc
  | cons u rest ih =>
    intro acc hacc
    simp only [mkTableAux]
    apply ih
    intro pr hpr
    rcases List.mem_append.1 hpr with h1 | h1
    · exact hacc pr h1
    · rw [List.mem_singleton] at h1
      subst h1
      cases hw : lookupA u wellKnown with
      | some p =>
        simp only [hw]
        exact hwk (u, p) (lookupA_some_mem u p wellKnown hw)
      | none =>
        simp only [hw]
        exact hgen u _ hw

theorem mkTable_entries (P : String → String → Prop)
    (hwk : ∀ pr ∈ wellKnown, P pr.1 pr.2)
    (hgen : ∀ u n, lookupA u wellKnown = none → P u ("ns" ++ decStr n))
    (us : List String) : ∀ pr ∈ mkTable us, P pr.1 pr.2 :=
  mkTableAux_entries P hwk hgen us [] (fun pr hpr => absurd hpr (List.not_mem_nil pr))

theorem mkTable_goodPfx (us : List String) : ∀ pr ∈ mkTable us, GoodPfx pr.1 pr.2 := by
  apply mkTable_entries
  · decide
  · intro u n hnone
    obtain ⟨hx1, hx2, hx3, hx4⟩ := ns_append_ne (decStr n)
    refine ⟨hx1, hx2, genPfx_splitC n, fun h => absurd h hx3, fun h => absurd h hx4, ?_⟩
    intro hu
    rw [hu, show lookupA androidUri wellKnown = some "android" from by decide] at hnone
    cases hnone

theorem mkTableAux_lookup_isSome (u : String) :
    ∀ (us : List String) (acc : List (String × String)),
      (u ∈ us ∨ (lookupA u acc).isSome = true) →
      (lookupA u (mkTableAux acc us)).isSome = true := by
  intro us
  induction us with
  | nil =>
    intro acc h
    rw [mkTableAux]
    rcases h with h | h
    · cases h
    · exact h
  | cons u' rest ih =>
    intro acc h
    simp only [mkTableAux]
    apply ih
    rcases h with h | h
    · rcases List.mem_cons.1 h with h1 | h1
      · subst h1
        right
        rw [lookupA_append]
        cases hl : lookupA u acc with
        | some v => rfl
        | none => rw [lookupA, if_pos rfl]; rfl
      · exact Or.inl h1
    · right
      rw [lookupA_append]
      cases hl : lookupA u acc with
      | some v => rfl
      | none => rw [hl] at h; exact absurd h (by decide)

theorem mkTable_lookup_isSome (u : String) (us : List String) (h : u ∈ us) :
    (lookupA u (mkTable us)).isSome = true :=
  mkTableAux_lookup_isSome u us [] (Or.inl h)

/-! ## Structural lemmas for the insertion and its reparse. -/

theorem goodL_append (table : List (String × String)) (env : Env) :
    ∀ xs ys, GoodL table env xs → GoodL table env ys →
      GoodL table env (XTs.append xs ys)
  | .nil, _, _, hy => hy
  | .cons _ xs, ys, hx, hy => ⟨hx.1, goodL_append table env xs ys hx.2 hy⟩

theorem goodL_appendChild (table : List (String × String)) (env : Env) (t : QN)
    (c : XT QN) :
    ∀ cs, GoodL table env cs → GoodE table env c →
      GoodL table env (appendChildToFirstTag t c cs)
  | .nil, _, _ => trivial
  | .cons (.node tg a cc) rest, hcs, hc => by
    rw [appendChildToFirstTag]
    by_cases ht : tg = t
    · rw [if_pos ht]
      exact ⟨⟨hcs.1.1, hcs.1.2.1, goodL_append table env cc _ hcs.1.2.2 ⟨hc, trivial⟩⟩,
        hcs.2⟩
    · rw [if_neg ht]
      exact ⟨hcs.1, goodL_appendChild table env t c rest hcs.2 hc⟩

theorem usesL_append (u : String) :
    ∀ xs ys, usesL u (XTs.append xs ys) = (usesL u xs || usesL u ys)
  | .nil, ys => by rw [XTs.append, usesL, Bool.false_or]
  | .cons x xs, ys => by
    rw [XTs.append, usesL, usesL, usesL_append u xs ys, Bool.or_assoc]

theorem usesL_appendChild (u : String) (t : QN) (c : XT QN) :
    ∀ cs, usesL u cs = true → usesL u (appendChildToFirstTag t c cs) = true
  | .nil, h => by rw [usesL] at h; cases h
  | .cons (.node tg a cc) rest, h => by
    rw [usesL] at h
    rw [appendChildToFirstTag]
    by_cases ht : tg = t
    · rw [if_pos ht, usesL]
      rcases bor_true.1 h with h1 | h1
      · apply bor_true.2
        left
        rw [usesE, usesL_append] at *
        rcases bor_true.1 h1 with h2 | h2
        · exact bor_true.2 (Or.inl h2)
        · exact bor_true.2 (Or.inr (bor_true.2 (Or.inl h2)))
      · exact bor_true.2 (Or.inr h1)
    · rw [if_neg ht, usesL]
      rcases bor_true.1 h with h1 | h1
      · exact bor_true.2 (Or.inl h1)
      · exact bor_true.2 (Or.inr (usesL_appendChild u t c rest h1))

theorem findTag_appendChild (t : QN) (c : XT QN) :
    ∀ cs tg a cc, findTag t cs = some (.node tg a cc) →
      findTag t (appendChildToFirstTag t c cs) =
        some (.node tg a (cc.append (.cons c .nil)))
  | .nil, _, _, _, h => by cases h
  | .cons (.node tg' a' cc') rest, tg, a, cc, h => by
    rw [findTag] at h
    rw [appendChildToFirstTag]
    by_cases ht : tg' = t
    · rw [if_pos ht] at h
      cases h
      rw [if_pos ht, findTag, if_pos ht]
    · rw [if_neg ht] at h
      rw [if_neg ht, findTag, if_neg ht]
      exact findTag_appendChild t c rest tg a cc h

theorem canonL_append (table : List (String × String)) (env : Env) :
    ∀ xs ys, canonL table env (XTs.append xs ys) =
      XTs.append (canonL table env xs) (canonL table env ys)
  | .nil, _ => rfl
  | .cons x xs, ys => by
    rw [XTs.append, canonL, canonL, canonL_append table env xs ys, XTs.append]

theorem provPresent_append :
    ∀ xs ys, provPresent (XTs.append xs ys) = (provPresent xs || provPresent ys)
  | .nil, ys => by rw [XTs.append, provPresent, Bool.false_or]
  | .cons (.node tg a c) rest, ys => by
    rw [XTs.append, provPresent, provPresent, provPresent_append rest ys, Bool.or_assoc]

/-! ## From parse shape and URI conditions to round-trip goodness. -/

mutual
theorem formE_good (table : List (String × String)) (env : Env) :
    ∀ e : XT QN, FormE e → (∀ u, usesE u e = true → CondU table env u) →
      GoodE table env e
  | .node t as cs, hF, hU => by
    obtain ⟨hFt, hFa, hFc⟩ := hF
    refine ⟨?_, ?_, ?_⟩
    · cases t with
      | plain s => exact Or.inl hFt
      | ns u l =>
        have hu : CondU table env u := by
          apply hU
          rw [usesE]
          apply bor_true.2
          left
          apply bor_true.2
          left
          rw [keyUses]
          exact beq_self_eq_true u
        obtain ⟨p, h1, _, h3, h4⟩ := hu
        exact ⟨p, h1, h3, h4⟩
    · intro pr hpr
      have hFk := hFa pr hpr
      cases hk : pr.1 with
      | plain s =>
        rw [hk] at hFk
        exact ⟨hFk.2, Or.inl hFk.1⟩
      | ns u l =>
        exact hU u (by
          rw [usesE]
          apply bor_true.2
          left
          apply bor_true.2
          right
          exact List.any_eq_true.2 ⟨pr, hpr, by rw [hk, keyUses]; exact beq_self_eq_true u⟩)
    · apply formL_good table env cs hFc
      intro u hu
      apply hU
      rw [usesE]
      exact bor_true.2 (Or.inr hu)

theorem formL_good (table : List (String × String)) (env : Env) :
    ∀ es : XTs QN, FormL es → (∀ u, usesL u es = true → CondU table env u) →
      GoodL table env es
  | .nil, _, _ => trivial
  | .cons x xs, hF, hU =>
    ⟨formE_good table env x hF.1
        (fun u hu => hU u (by rw [usesL]; exact bor_true.2 (Or.inl hu))),
     formL_good table env xs hF.2
        (fun u hu => hU u (by rw [usesL]; exact bor_true.2 (Or.inr hu)))⟩
end

/-- The freshly built provider element is good as soon as the `android` prefix
is bound in the reparse environment. -/
theorem goodE_providerElem (table : List (String × String)) (env : Env)
    (hA : lookupA "android" env = some androidUri) : GoodE table env providerElem := by
  refine ⟨Or.inl (by decide), ?_, ⟨Or.inl (by decide), ?_, trivial⟩, trivial⟩
  · intro pr hpr
    simp only [List.mem_cons, List.not_mem_nil, or_false] at hpr
    rcases hpr with h | h | h | h
    · subst h
      exact ⟨by decide, Or.inr ⟨"android", "name", by decide, by decide, by rw [hA]; rfl⟩⟩
    · subst h
      exact ⟨by decide,
        Or.inr ⟨"android", "authorities", by decide, by decide, by rw [hA]; rfl⟩⟩
    · subst h
      exact ⟨by decide,
        Or.inr ⟨"android", "exported", by decide, by decide, by rw [hA]; rfl⟩⟩
    · subst h
      exact ⟨by decide,
        Or.inr ⟨"android", "grantUriPermissions", by decide, by decide, by rw [hA]; rfl⟩⟩
  · intro pr hpr
    simp only [List.mem_cons, List.not_mem_nil, or_false] at hpr
    rcases hpr with h | h
    · subst h
      exact ⟨by decide, Or.inr ⟨"android", "name", by decide, by decide, by rw [hA]; rfl⟩⟩
    · subst h
      exact ⟨by decide,
        Or.inr ⟨"android", "resource", by decide, by decide, by rw [hA]; rfl⟩⟩

/-! ## The reparse environment produced by the emitted xmlns attributes. -/

theorem nsDeclOf_xmlns_pfx (p u : String) : nsDeclOf ("xmlns:" ++ p) u = some (p, u) := by
  have h1 : ("xmlns:" ++ p : String) = "xmlns" ++ ":" ++ p := by
    apply String.ext
    rw [String.data_append, String.data_append, String.data_append]
    rfl
  have hsp : splitC ':' ("xmlns:" ++ p) = some ("xmlns", p) := by
    rw [h1]
    exact splitC_prefixed "xmlns" p (by decide)
  have hne : ("xmlns:" ++ p : String) ≠ "xmlns" := by
    intro h
    rw [h, show splitC ':' "xmlns" = none from by decide] at hsp
    cases hsp
  rw [nsDeclOf, if_neg hne]
  simp only [hsp]
  simp

theorem mem_xmlnsAttrs (table : List (String × String)) (e : String × String) :
    e ∈ xmlnsAttrs table ↔
      ∃ u p, (u, p) ∈ table ∧ p ≠ "xml" ∧ e = ("xmlns:" ++ p, u) := by
  rw [xmlnsAttrs, mem_sortByKey, List.mem_map]
  constructor
  · rintro ⟨pr, hpr, he⟩
    rw [List.mem_filter] at hpr
    refine ⟨pr.1, pr.2, hpr.1, ?_, he.symm⟩
    have h2 := hpr.2
    simp only [Bool.not_eq_eq_eq_not, Bool.not_true, beq_eq_false_iff_ne] at h2
    exact h2
  · rintro ⟨u, p, hm, hxml, he⟩
    refine ⟨(u, p), ?_, he.symm⟩
    rw [List.mem_filter]
    exact ⟨hm, by simp [hxml]⟩

theorem mem_nsDecls_xmlnsAttrs (table : List (String × String)) (e : String × String) :
    e ∈ nsDecls (xmlnsAttrs table) ↔
      ∃ u p, (u, p) ∈ table ∧ p ≠ "xml" ∧ e = (p, u) := by
  rw [nsDecls, List.mem_filterMap]
  constructor
  · rintro ⟨a, ha, hd⟩
    obtain ⟨u, p, hm, hx, he⟩ := (mem_xmlnsAttrs table a).1 ha
    subst he
    rw [nsDeclOf_xmlns_pfx] at hd
    cases hd
    exact ⟨u, p, hm, hx, rfl⟩
  · rintro ⟨u, p, hm, hx, he⟩
    subst he
    exact ⟨("xmlns:" ++ p, u), (mem_xmlnsAttrs table _).2 ⟨u, p, hm, hx, rfl⟩,
      nsDeclOf_xmlns_pfx p u⟩

theorem envOf_default_none (table : List (String × String))
    (hP : ∀ pr ∈ table, GoodPfx pr.1 pr.2) : lookupA "" (envOf table) = none := by
  apply lookupA_none_of_forall
  intro pr hpr
  rcases List.mem_append.1 hpr with h | h
  · obtain ⟨u, p, hm, _, he⟩ := (mem_nsDecls_xmlnsAttrs table pr).1 h
    subst he
    exact (hP (u, p) hm).2.1
  · simp only [envInit, List.mem_singleton] at h
    subst h
    decide

theorem envOf_lookup_isSome (table : List (String × String)) (u p : String)
    (hm : (u, p) ∈ table) : (lookupA p (envOf table)).isSome = true := by
  by_cases hx : p = "xml"
  · subst hx
    rw [envOf, lookupA_append_left_none]
    · rw [show lookupA "xml" envInit = some xmlUri from by decide]
      rfl
    · intro pr hpr
      obtain ⟨u', p', hm', hx', he⟩ := (mem_nsDecls_xmlnsAttrs table pr).1 hpr
      subst he
      exact hx'
  · rw [envOf, lookupA_append]
    have hmem : (p, u) ∈ nsDecls (xmlnsAttrs table) :=
      (mem_nsDecls_xmlnsAttrs table _).2 ⟨u, p, hm, hx, rfl⟩
    obtain ⟨v, hv⟩ := Option.isSome_iff_exists.1 (lookupA_isSome_of_mem p u _ hmem)
    rw [hv]
    rfl

theorem envOf_android (table : List (String × String))
    (hP : ∀ pr ∈ table, GoodPfx pr.1 pr.2)
    (hmem : (androidUri, "android") ∈ table) :
    lookupA "android" (envOf table) = some androidUri := by
  apply lookupA_eq_of_mem_forall
  · exact List.mem_append.2 (Or.inl
      ((mem_nsDecls_xmlnsAttrs table _).2 ⟨androidUri, "android", hmem, by decide, rfl⟩))
  · intro pr hpr hk
    rcases List.mem_append.1 hpr with h | h
    · obtain ⟨u', p', hm', _, he⟩ := (mem_nsDecls_xmlnsAttrs table pr).1 h
      subst he
      exact (hP (u', p') hm').2.2.2.2.1 hk
    · simp only [envInit, List.mem_singleton] at h
      subst h
      exact absurd hk (by decide)

theorem table_android_entry (us : List String) (hmem : androidUri ∈ us) :
    (androidUri, "android") ∈ mkTable us := by
  obtain ⟨p, hp⟩ := Option.isSome_iff_exists.1 (mkTable_lookup_isSome androidUri us hmem)
  have hm := lookupA_some_mem _ _ _ hp
  have hpa : p = "android" := (mkTable_goodPfx us (androidUri, p) hm).2.2.2.2.2 rfl
  rw [hpa] at hm
  exact hm

theorem condU_of_lookup (table : List (String × String)) (env : Env) (u : String)
    (hsome : (lookupA u table).isSome = true)
    (hP : ∀ pr ∈ table, GoodPfx pr.1 pr.2)
    (hEnv : ∀ u' p, (u', p) ∈ table → (lookupA p env).isSome = true) :
    CondU table env u := by
  obtain ⟨p, hp⟩ := Option.isSome_iff_exists.1 hsome
  have hm := lookupA_some_mem _ _ _ hp
  obtain ⟨h1, _, h3, _, _, _⟩ := hP (u, p) hm
  exact ⟨p, hp, h1, h3, hEnv u p hm⟩

theorem xmlnsAttrs_decls (table : List (String × String)) :
    ∀ pr ∈ xmlnsAttrs table, (nsDeclOf pr.1 pr.2).isSome = true := by
  intro pr hpr
  obtain ⟨u, p, _, _, he⟩ := (mem_xmlnsAttrs table pr).1 hpr
  subst he
  rw [nsDeclOf_xmlns_pfx]
  rfl

/-! ## Tag preservation through serialization and reparse. -/

theorem canonTagQ_plain_of (table : List (String × String)) (env : Env)
    (hE0 : lookupA "" env = none) (s : String) (hs : splitC ':' s = none) :
    canonTagQ table env (.plain s) = .plain s := by
  simp only [canonTagQ, hs, hE0]

theorem canonTagQ_ne_plain (table : List (String × String)) (env : Env) (t : QN)
    (s : String) (hE0 : lookupA "" env = none) (hs : splitC ':' s = none)
    (hne : t ≠ QN.plain s) : canonTagQ table env t ≠ QN.plain s := by
  cases t with
  | plain s' =>
    cases hsp : splitC ':' s' with
    | none =>
      rw [canonTagQ_plain_of table env hE0 s' hsp]
      exact hne
    | some pr =>
      obtain ⟨p, l⟩ := pr
      simp only [canonTagQ, hsp]
      cases hl : lookupA p env with
      | some u =>
        simp only [hl]
        intro hEq
        cases hEq
      | none =>
        simp only [hl]
        intro hEq
        cases hEq
        rw [hs] at hsp
        cases hsp
  | ns u l =>
    simp only [canonTagQ]
    cases h1 : lookupA u table with
    | none =>
      simp only [h1]
      intro hEq
      cases hEq
    | some p =>
      simp only [h1]
      cases h2 : lookupA p env with
      | none =>
        simp only [h2]
        intro hEq
        cases hEq
      | some u' =>
        simp only [h2]
        intro hEq
        cases hEq

theorem findTag_canonL (table : List (String × String)) (env : Env)
    (hE0 : lookupA "" env = none) :
    ∀ (cs : XTs QN) (e : XT QN), findTag (QN.plain "application") cs = some e →
      findTag (QN.plain "application") (canonL table env cs) =
        some (canonE table env e)
  | .nil, _, h => by cases h
  | .cons (.node tg a cc) rest, e, h => by
    rw [findTag] at h
    simp only [canonL, canonE]
    rw [findTag]
    by_cases ht : tg = QN.plain "application"
    · rw [if_pos ht] at h
      cases h
      subst ht
      rw [if_pos (canonTagQ_plain_of table env hE0 "application" (by decide))]
      rfl
    · rw [if_neg ht] at h
      rw [if_neg (canonTagQ_ne_plain table env tg "application" hE0 (by decide) ht)]
      exact findTag_canonL table env hE0 rest e h

theorem findTag_tag (t : QN) : ∀ (cs : XTs QN) (tg : QN) (a : List (QN × String))
    (c : XTs QN), findTag t cs = some (.node tg a c) → tg = t
  | .nil, _, _, _, h => by cases h
  | .cons (.node tg' a' c') rest, tg, a, c, h => by
    rw [findTag] at h
    by_cases ht : tg' = t
    · rw [if_pos ht] at h
      cases h
      exact ht
    · rw [if_neg ht] at h
      exact findTag_tag t rest tg a c h

/-- After the round trip, the single appended provider is recognised by the
namespaced-name scan. -/
theorem provPresent_canon_single (table : List (String × String)) (env : Env)
    (hE0 : lookupA "" env = none) (hA : lookupA "android" env = some androidUri) :
    provPresent (XTs.cons (canonE table env providerElem) .nil) = true := by
  have hname : canonKeyQ table env (QN.plain "android:name") = QN.ns androidUri "name" := by
    simp only [canonKeyQ,
      show splitC ':' "android:name" = some ("android", "name") from by decide, hA]
  simp only [providerElem, canonE, List.map_cons, provPresent]
  rw [canonTagQ_plain_of table env hE0 "provider" (by decide), hname]
  simp [lookupA, providerName]

/-- The heart of the amended idempotence claim: serializing the patched tree
and parsing it again succeeds, the application element is found again, and the
inserted provider is now recognised by its namespaced name. -/
theorem second_run_finds (rt : QN) (ras : List (QN × String)) (rcs : XTs QN)
    (hF : FormE (XT.node rt ras rcs))
    (h3 : usesE androidUri (XT.node rt ras rcs) = true)
    (app : XT QN)
    (hft : findTag (QN.plain "application") rcs = some app) :
    ∃ rt2 ras2 rcs2 app2,
      resolveE envInit (serializeDoc (XT.node rt ras
          (appendChildToFirstTag (QN.plain "application") providerElem rcs))) =
        .ok (XT.node rt2 ras2 rcs2) ∧
      findTag (QN.plain "application") rcs2 = some app2 ∧
      provPresent app2.childrenOf = true := by
  cases app with
  | node atg aat acc =>
    have htg : atg = QN.plain "application" := findTag_tag _ rcs atg aat acc hft
    subst htg
    simp only [serializeDoc, serE]
    generalize hT : mkTable (collectUris (XT.node rt ras
      (appendChildToFirstTag (QN.plain "application") providerElem rcs))) = T
    have hP : ∀ pr ∈ T, GoodPfx pr.1 pr.2 := by
      rw [← hT]
      exact mkTable_goodPfx _
    have hE0 : lookupA "" (envOf T) = none := envOf_default_none T hP
    have hAndEntry : (androidUri, "android") ∈ T := by
      rw [← hT]
      apply table_android_entry
      rw [mem_collectUris]
      rw [usesE] at h3 ⊢
      rcases bor_true.1 h3 with h | h
      · exact bor_true.2 (Or.inl h)
      · exact bor_true.2 (Or.inr (usesL_appendChild _ _ _ rcs h))
    have hA : lookupA "android" (envOf T) = some androidUri := envOf_android T hP hAndEntry
    have hCond : ∀ u, usesE u (XT.node rt ras rcs) = true → CondU T (envOf T) u := by
      intro u hu
      apply condU_of_lookup T (envOf T) u ?_ hP (fun u' p hm => envOf_lookup_isSome T u' p hm)
      rw [← hT]
      apply mkTable_lookup_isSome
      rw [mem_collectUris]
      rw [usesE] at hu ⊢
      rcases bor_true.1 hu with h | h
      · exact bor_true.2 (Or.inl h)
      · exact bor_true.2 (Or.inr (usesL_appendChild _ _ _ rcs h))
    obtain ⟨hGt, hGa, hGc⟩ := formE_good T (envOf T) (XT.node rt ras rcs) hF hCond
    have hGprov : GoodE T (envOf T) providerElem := goodE_providerElem T (envOf T) hA
    have hGc2 : GoodL T (envOf T)
        (appendChildToFirstTag (QN.plain "application") providerElem rcs) :=
      goodL_appendChild T (envOf T) _ _ rcs hGc hGprov
    have henv : nsDecls (xmlnsAttrs T ++ ras.map (fun p => (serKeyQ T p.1, p.2))) ++ envInit =
        envOf T := by
      rw [nsDecls_append, nsDecls_serAttrs T (envOf T) ras hGa, List.append_nil, envOf]
    refine ⟨canonTagQ T (envOf T) rt,
      ras.map (fun p => (canonKeyQ T (envOf T) p.1, p.2)),
      canonL T (envOf T) (appendChildToFirstTag (QN.plain "application") providerElem rcs),
      canonE T (envOf T)
        (XT.node (QN.plain "application") aat (acc.append (.cons providerElem .nil))),
      ?_, ?_, ?_⟩
    · simp only [resolveE]
      rw [henv, resolveAttrs_decls_skip (envOf T) (xmlnsAttrs T) _ (xmlnsAttrs_decls T),
        resolveTagR_serKey T (envOf T) rt hGt hE0,
        resolveAttrs_serAttrs T (envOf T) ras hGa,
        resolveL_serL T (envOf T) _ hE0 hGc2]
    · exact findTag_canonL T (envOf T) hE0 _ _
        (findTag_appendChild (QN.plain "application") providerElem rcs _ _ _ hft)
    · simp only [canonE, XT.childrenOf]
      rw [canonL_append, provPresent_append]
      apply bor_true.2
      right
      have hc : canonL T (envOf T) (XTs.cons providerElem .nil) =
          XTs.cons (canonE T (envOf T) providerElem) .nil := by
        rw [canonL, canonL]
      rw [hc]
      exact provPresent_canon_single T (envOf T) hE0 hA

/-- C1 (amended): for every manifest whose parsed document uses the android
attribute namespace somewhere — as every real decompiled manifest does — the
patch is idempotent: if a run returns `fs1`, a second run on `fs1` finds the
provider already present among the application's provider children, performs
no write, and returns exactly `fs1`, so the serialized manifest is
byte-identical after the first and the second run.  (The unconditional claim
fails: see the counterexample, where the android prefix ends up undeclared and
the second run raises a parse error instead.) -/
theorem C1_amended_idempotent (base : Path) (fs : FS) (raw : XT String) (rt : QN)
    (ras : List (QN × String)) (rcs : XTs QN) (fs1 : FS)
    (h1 : fs.lookup (base ++ ["AndroidManifest.xml"]) = some (.xml raw))
    (h2 : resolveE envInit raw = .ok (.node rt ras rcs))
    (h3 : usesE androidUri (.node rt ras rcs) = true)
    (h4 : add_provider_to_manifest base fs = .ok fs1) :
    add_provider_to_manifest base fs1 = .ok fs1 := by
  simp only [add_provider_to_manifest, h1, h2] at h4
  cases hft : findTag (.plain "application") rcs with
  | none =>
    simp only [hft] at h4
    cases h4
  | some app =>
    simp only [hft] at h4
    cases hpp : provPresent app.childrenOf with
    | true =>
      rw [hpp, if_pos rfl] at h4
      cases h4
      simp only [add_provider_to_manifest, h1, h2, hft, hpp, eq_self_iff_true, if_true]
    | false =>
      simp only [hpp, Bool.false_eq_true, if_false] at h4
      cases h4
      obtain ⟨rt2, ras2, rcs2, app2, hres, hft2, hpp2⟩ :=
        second_run_finds rt ras rcs (resolveE_form envInit raw _ h2) h3 app hft
      simp only [add_provider_to_manifest, FS.lookup_write_self, hres, hft2, hpp2,
        eq_self_iff_true, if_true]

/-- C1 witness: on a realistic manifest (root declares `xmlns:android`, the
application element uses an android-namespaced attribute) the first run writes
the provider and the second run returns the filesystem unchanged. -/
theorem C1_witness :
    usesE androidUri
      (.node (.plain "manifest") [(.plain "package", "jp.co.example")] nsParsedChildren) =
      true ∧
    add_provider_to_manifest ["base"] fsNs = .ok fsNs1 ∧
    add_provider_to_manifest ["base"] fsNs1 = .ok fsNs1 :=
  ⟨by decide, by decide,
   C1_amended_idempotent ["base"] fsNs nsManifest (.plain "manifest")
     [(.plain "package", "jp.co.example")] nsParsedChildren fsNs1
     (by decide) (by decide) (by decide) (by decide)⟩

end Upatcher
